import Mathlib

/-!
Verification of the color-ramp core of the LUT repository.

The numeric pipeline of `lut_colors` (src/lutcolors.py) and the helpers in
src/hexify.py and src/_utils.py are embedded over exact rationals `ℚ`.
Python floats are modelled by `ℚ`; the only NaN the pipeline can produce
(`arange(1)/(1-1.0) = 0/0`) is modelled by `Option ℚ` at the anchor-position
arrays, with `none` (NaN) comparing false to everything, as IEEE demands.
Python exceptions are modelled by `Except PyErr`.

External collaborators are out of scope and cut at their interfaces:
`_color_to_tripple` resolves color names through the `paramio` parameter file,
so the embedded `lut_colors` receives the already-resolved RGB triples;
`load_colormap`/`outfile` output and the chips plotting calls are side effects
performed after the ramp is computed and do not affect the ramp's values.
-/

abbrev Triple := ℚ × ℚ × ℚ

/-- Python exception values surfaced by the embedded code.  The source only
ever raises `ValueError` and `IndexError`.  The specification's error
taxonomy additionally names `ConfigurationError` and `ValidationError`, so
those two appear as constructors in order to make specification-level
statements expressible; no embedded function produces them. -/
inductive PyErr where
  | valueError (msg : String)
  | indexError (msg : String)
  | configurationError
  | validationError
deriving DecidableEq

/-- Python `int()` applied to a float: truncation toward zero. -/
def pyInt (q : ℚ) : ℤ := if q < 0 then -(⌊-q⌋) else ⌊q⌋

/-- Python / numpy `x % 1.0` on a finite float: the fractional part, in `[0,1)`
(the sign of a Python float modulo follows the divisor). -/
def pyMod1 (q : ℚ) : ℚ := Int.fract q

/-- numpy elementwise division as used in `np.arange(n)/(n-1.0)`.  A zero
denominator is reached only as `0/0` (when `n = 1`), which is IEEE NaN;
`none` models NaN.  NaN never equals, exceeds, or falls below anything. -/
def npDiv (a b : ℚ) : Option ℚ := if b = 0 then none else some (a / b)

/-- `v ≤ x` for a possibly-NaN `v`: any comparison against NaN is false. -/
def optLE (v : Option ℚ) (x : ℚ) : Bool :=
  match v with
  | some q => decide (q ≤ x)
  | none => false

/-- CPython `colorsys.rgb_to_hsv`, exactly as the stdlib module imported at
src/lutcolors.py:292 computes it, over exact rationals. -/
def rgb_to_hsv : Triple → Triple := fun (r, g, b) =>
  let maxc := max r (max g b)
  let minc := min r (min g b)
  let v := maxc
  if minc = maxc then (0, 0, v) else
  let s := (maxc - minc) / maxc
  let rc := (maxc - r) / (maxc - minc)
  let gc := (maxc - g) / (maxc - minc)
  let bc := (maxc - b) / (maxc - minc)
  let h := if r = maxc then bc - gc else if g = maxc then 2 + rc - bc else 4 + gc - rc
  (pyMod1 (h / 6), s, v)

/-- CPython `colorsys.hsv_to_rgb`.  `i` is reduced with Python's flooring
integer modulo; the final catch-all arm mirrors the stdlib's unreachable
"Cannot get here" fall-through. -/
def hsv_to_rgb : Triple → Triple := fun (h, s, v) =>
  if s = 0 then (v, v, v) else
  let i := pyInt (h * 6)
  let f := h * 6 - i
  let p := v * (1 - s)
  let q := v * (1 - s * f)
  let t := v * (1 - s * (1 - f))
  let i := Int.fmod i 6
  if i = 0 then (v, t, p)
  else if i = 1 then (q, v, p)
  else if i = 2 then (p, v, t)
  else if i = 3 then (p, q, v)
  else if i = 4 then (t, p, q)
  else if i = 5 then (v, p, q)
  else (0, 0, 0)

/-- CPython `colorsys.rgb_to_hls`. -/
def rgb_to_hls : Triple → Triple := fun (r, g, b) =>
  let maxc := max r (max g b)
  let minc := min r (min g b)
  let l := (minc + maxc) / 2
  if minc = maxc then (0, l, 0) else
  let s := if l ≤ 1/2 then (maxc - minc) / (maxc + minc)
           else (maxc - minc) / (2 - maxc - minc)
  let rc := (maxc - r) / (maxc - minc)
  let gc := (maxc - g) / (maxc - minc)
  let bc := (maxc - b) / (maxc - minc)
  let h := if r = maxc then bc - gc else if g = maxc then 2 + rc - bc else 4 + gc - rc
  (pyMod1 (h / 6), l, s)

/-- CPython `colorsys._v`, the helper of `hls_to_rgb`.  The stdlib's
`ONE_SIXTH`, `ONE_THIRD` and `TWO_THIRD` float constants are the exact
rationals here. -/
def hls_v (m1 m2 hue : ℚ) : ℚ :=
  let hue := pyMod1 hue
  if hue < 1/6 then m1 + (m2 - m1) * hue * 6
  else if hue < 1/2 then m2
  else if hue < 2/3 then m1 + (m2 - m1) * (2/3 - hue) * 6
  else m1

/-- CPython `colorsys.hls_to_rgb`. -/
def hls_to_rgb : Triple → Triple := fun (h, l, s) =>
  if s = 0 then (l, l, l) else
  let m2 := if l ≤ 1/2 then l * (1 + s) else l + s - l * s
  let m1 := 2 * l - m2
  (hls_v m1 m2 (h + 1/3), hls_v m1 m2 h, hls_v m1 m2 (h - 1/3))

/-- The value computed by `np.interp(x, xp, fp)` for a single query point,
`xp` nonempty.  With one sample point numpy returns `fp[0]` whatever `x`
(also when `xp[0]` is NaN: both `x < xp[0]` and `x > xp[0]` are false).
With two or more sample points (all rational in every reachable use, since
the positions `i/(K-1)` are finite for `K ≥ 2`) numpy's piecewise-linear
rule applies: clamp below the first and above the last sample point, else
interpolate linearly on the enclosing interval of the sorted `xp`. -/
def np_interp_aux (x : ℚ) : List (Option ℚ) → List ℚ → ℚ
  | [_], f1 :: _ => f1
  | some x1 :: some x2 :: xs, f1 :: f2 :: fs =>
      if x ≤ x1 then f1
      else if x ≤ x2 then f1 + (f2 - f1) * (x - x1) / (x2 - x1)
      else np_interp_aux x (some x2 :: xs) (f2 :: fs)
  | _, _ => 0

/-- `np.interp(x, xp, fp)` for one query point: numpy raises
`ValueError("array of sample points is empty")` when `xp` is empty, before
looking at anything else. -/
def np_interp (x : ℚ) (xp : List (Option ℚ)) (fp : List ℚ) : Except PyErr ℚ :=
  if xp.isEmpty then .error (.valueError "array of sample points is empty")
  else .ok (np_interp_aux x xp fp)

/-- `np.where(xx <= x)[0][-1]` : the largest index `i` with `xx[i] ≤ x`,
`none` when no index qualifies (then the Python indexing `[-1]` of the empty
index array raises `IndexError`). -/
def lastIdxLE (x : ℚ) : List (Option ℚ) → Option ℕ
  | [] => none
  | v :: vs =>
      match lastIdxLE x vs with
      | some j => some (j + 1)
      | none => if optLE v x then some 0 else none

/-- The pure value produced by one loop iteration of `_circular_interp`
(src/lutcolors.py:238-254) once the enclosing index `idx` has been located:
the final-anchor shortcut, the two hue-wraparound branches (bump the smaller
endpoint of the located pair by `1`, interpolate, reduce `mod 1.0`), or plain
interpolation.  `th = hh[:]` with one entry bumped is `List.set`.  The
`np.interp` calls inside cannot raise here because `xx` is nonempty whenever
an index was located, so they appear through `np_interp_aux`. -/
def circ_val (xx : List (Option ℚ)) (hh : List ℚ) (x : ℚ) (idx : ℕ) : ℚ :=
  if idx = hh.length - 1 then hh.getD (hh.length - 1) 0
  else if hh.getD (idx + 1) 0 - hh.getD idx 0 > 1/2 then
    pyMod1 (np_interp_aux x xx (hh.set idx (hh.getD idx 0 + 1)))
  else if hh.getD (idx + 1) 0 - hh.getD idx 0 < -(1/2) then
    pyMod1 (np_interp_aux x xx (hh.set (idx + 1) (hh.getD (idx + 1) 0 + 1)))
  else np_interp_aux x xx hh

/-- One loop iteration of `_circular_interp`: locate the last anchor position
not above `x`; an empty index set is the Python `IndexError`. -/
def circ_one (xx : List (Option ℚ)) (hh : List ℚ) (x : ℚ) : Except PyErr ℚ :=
  match lastIdxLE x xx with
  | none => .error (.indexError "index -1 is out of bounds for axis 0 with size 0")
  | some idx => .ok (circ_val xx hh x idx)

/-- The pure value of `circ_one` when it does not raise (`0` junk otherwise);
`circ_one xx hh x = .ok (circ_pure xx hh x)` whenever an index is located. -/
def circ_pure (xx : List (Option ℚ)) (hh : List ℚ) (x : ℚ) : ℚ :=
  match lastIdxLE x xx with
  | none => 0
  | some idx => circ_val xx hh x idx

/-- A Python `for` loop that appends one computed value per element and
propagates the first raised exception. -/
def exceptMap (f : α → Except PyErr β) : List α → Except PyErr (List β)
  | [] => .ok []
  | a :: as =>
      match f a with
      | .error e => .error e
      | .ok b =>
          match exceptMap f as with
          | .error e => .error e
          | .ok bs => .ok (b :: bs)

/-- `_circular_interp(x0, xx, hh)` (src/lutcolors.py:232-256). -/
def circular_interp (x0 : List ℚ) (xx : List (Option ℚ)) (hh : List ℚ) :
    Except PyErr (List ℚ) :=
  exceptMap (circ_one xx hh) x0

/-- Python-2 three-iterable `map` over equal-length lists
(`map(invert, hh_i, ss_i, vv_i)`, src/lutcolors.py:325). -/
def zipWith3 (f : ℚ → ℚ → ℚ → Triple) : List ℚ → List ℚ → List ℚ → List Triple
  | a :: as, b :: bs, c :: cs => f a b c :: zipWith3 f as bs cs
  | _, _, _ => []

/-- `np.arange(n)/(n-1.0)` as rational values: the normalized positions
`j/(n-1)` for `j < n`.  For `n = 1` the single entry is `0/0`, numpy NaN;
this plain-`ℚ` list renders it as `0` (ℚ division by zero), so every theorem
below that consumes these positions as query points restricts to `n ≥ 2`,
where no NaN exists.  (The anchor-position array, where the NaN case *is*
claim-relevant, uses the NaN-aware `xxOf` instead.) -/
def posList (n : ℕ) : List ℚ :=
  (List.range n).map fun (j : ℕ) => (j : ℚ) / ((n : ℚ) - 1)

/-- `np.arange(K)/(K-1.0)` as the anchor-position array, NaN-aware:
for `K = 1` the single entry is `0/0 =` NaN. -/
def xxOf (K : ℕ) : List (Option ℚ) :=
  (List.range K).map fun (i : ℕ) => npDiv (i : ℚ) ((K : ℚ) - 1)

/-- The numeric body of `lut_colors` (src/lutcolors.py:314-329) shared by the
three color-space branches: split the converted anchors into channels, build
the anchor and output position arrays, interpolate each channel (the first
channel circularly when `circ` is true), convert back, and zip the channels
into output triples.  Channel interpolations happen in source order
(`hh_i`, then `ss_i`, then `vv_i`), so the first raising call wins. -/
def lut_core (rgbs : List Triple) (num_colors : ℕ) (convert : Triple → Triple)
    (circ : Bool) (invert : ℚ → ℚ → ℚ → Triple) : Except PyErr (List Triple) :=
  let hsvs := rgbs.map convert
  let hh := hsvs.map fun t => t.1
  let ss := hsvs.map fun t => t.2.1
  let vv := hsvs.map fun t => t.2.2
  let xx := xxOf hh.length
  let x0 := posList num_colors
  match (if circ then circular_interp x0 xx hh
         else exceptMap (fun x => np_interp x xx hh) x0) with
  | .error e => .error e
  | .ok hh_i =>
      match exceptMap (fun x => np_interp x xx ss) x0 with
      | .error e => .error e
      | .ok ss_i =>
          match exceptMap (fun x => np_interp x xx vv) x0 with
          | .error e => .error e
          | .ok vv_i => .ok (zipWith3 invert hh_i ss_i vv_i)

/-- `lut_colors(colors, ..., num_colors, ..., colorsys)`
(src/lutcolors.py:260-331), cut at its external interfaces: `colors` are the
RGB triples already resolved from the color names by `_color_to_tripple`
(an external `paramio` lookup), and the returned list is the ramp that the
source hands to `load_colormap` / writes to `outfile` (external effects).
The branch on `colorsys` selects conversion, interpolation and inversion;
an unknown tag raises `ValueError` before any interpolation. -/
def lut_colors (colors : List Triple) (num_colors : ℕ) (colorsys : String) :
    Except PyErr (List Triple) :=
  if colorsys = "rgb" then
    lut_core colors num_colors (fun c => c) false (fun x y z => (x, y, z))
  else if colorsys = "hsv" then
    lut_core colors num_colors rgb_to_hsv true (fun h s v => hsv_to_rgb (h, s, v))
  else if colorsys = "hls" then
    lut_core colors num_colors rgb_to_hls true (fun h l s => hls_to_rgb (h, l, s))
  else .error (.valueError "Unknow value of colorsys")

/-- One hexadecimal digit as Python's uppercase `X` format renders it. -/
def hexDigit (n : ℕ) : Char :=
  if n < 10 then Char.ofNat (48 + n) else Char.ofNat (55 + n)

/-- Python `"{:02X}".format(n)` for `0 ≤ n ≤ 255`: two uppercase hex digits. -/
def toHex2 (n : ℕ) : String := String.mk [hexDigit (n / 16), hexDigit (n % 16)]

/-- `hexify(value)` (src/hexify.py:38-58): reject values outside `[0,1]`,
scale by 256, truncate, clamp 256 down to 255, format as two uppercase hex
digits. -/
def hexify (value : ℚ) : Except PyErr String :=
  if value < 0 ∨ value > 1 then
    .error (.valueError "Color values must be between 0 and 1")
  else
    let val := value * 256
    let ival := pyInt val
    let ival := if ival ≤ 255 then ival else 255
    .ok (toHex2 ival.toNat)

/-- `_unzip_stuff(filename)` (src/_utils.py:47-69) for a tuple argument,
modelled as the list of its channel sequences: exactly three sequences of
equal length with every value in `[0,1]`, else `IndexError`. -/
def unzip_stuff (filename : List (List ℚ)) :
    Except PyErr (List ℚ × List ℚ × List ℚ) :=
  if filename.length ≠ 3 then
    .error (.indexError "The input tuple must have 3 elements")
  else
    let r := filename.getD 0 []
    let g := filename.getD 1 []
    let b := filename.getD 2 []
    if r.length ≠ g.length ∨ r.length ≠ b.length ∨ g.length ≠ b.length then
      .error (.indexError "Must have the same number of red, green, and blue values")
    else if r.any fun x => decide (x < 0) || decide (x > 1) then
      .error (.indexError "All the red values must be between 0 and 1.")
    else if g.any fun x => decide (x < 0) || decide (x > 1) then
      .error (.indexError "All the green values must be between 0 and 1.")
    else if b.any fun x => decide (x < 0) || decide (x > 1) then
      .error (.indexError "All the blue values must be between 0 and 1.")
    else .ok (r, g, b)

/-- `get_rgb_values(filename, reverse, invert)` (src/_utils.py:90-112) on the
tuple branch (the string branch, `_try_hard_to_locate`, performs file I/O and
is an external collaborator).  `rr[::-1]` is `List.reverse`; `1.0 - rr` is
numpy's elementwise subtraction on the channel arrays. -/
def get_rgb_values (filename : List (List ℚ)) (reverse invert : Bool) :
    Except PyErr (List ℚ × List ℚ × List ℚ) :=
  match unzip_stuff filename with
  | .error e => .error e
  | .ok (rr, gg, bb) =>
      let (rr, gg, bb) := if reverse then (rr.reverse, gg.reverse, bb.reverse)
                          else (rr, gg, bb)
      let (rr, gg, bb) := if invert then
                            (rr.map (fun v => 1 - v), gg.map (fun v => 1 - v),
                             bb.map (fun v => 1 - v))
                          else (rr, gg, bb)
      .ok (rr, gg, bb)

/-- Stated from the specification's words, for comparison with the source's
`_circular_interp`: interpolate the enclosing anchor-hue pair `(h1, h2)` at
parameter `t` along the shorter arc of the circle of circumference 1 — if the
absolute hue difference exceeds `0.5`, add `1.0` to whichever endpoint is
smaller before interpolating linearly, then reduce the result modulo `1.0`
into `[0,1)`. -/
def shortestArcHue (h1 h2 t : ℚ) : ℚ :=
  if |h2 - h1| > 1/2 then
    let h1' := if h1 < h2 then h1 + 1 else h1
    let h2' := if h2 < h1 then h2 + 1 else h2
    pyMod1 (h1' + (h2' - h1') * t)
  else h1 + (h2 - h1) * t

/-- The round trip through the working color space named by `colorsys`, as the
specification's endpoint-fidelity property words it ("converted through and
back"). -/
def roundTripFn (colorsys : String) : Triple → Triple :=
  if colorsys = "rgb" then fun c => c
  else if colorsys = "hsv" then fun c => hsv_to_rgb (rgb_to_hsv c)
  else fun c => hls_to_rgb (rgb_to_hls c)

/-- Numeric value of one uppercase hex digit (inverse of `hexDigit`). -/
def hexDigitVal (c : Char) : ℕ :=
  if c.toNat < 58 then c.toNat - 48 else c.toNat - 55

/-- Channels of an RGB triple all lie in the unit interval. -/
def inUnit (c : Triple) : Prop :=
  0 ≤ c.1 ∧ c.1 ≤ 1 ∧ 0 ≤ c.2.1 ∧ c.2.1 ≤ 1 ∧ 0 ≤ c.2.2 ∧ c.2.2 ≤ 1

instance : DecidablePred inUnit := fun c => by unfold inUnit; infer_instance

/-! Basic lemmas about the loop combinators. -/

theorem exceptMap_congr_ok (f : α → Except PyErr β) (g : α → β) :
    ∀ l : List α, (∀ a ∈ l, f a = .ok (g a)) → exceptMap f l = .ok (l.map g) := by
  intro l
  induction l with
  | nil => intro _; rfl
  | cons a as ih =>
      intro h
      have ha := h a (List.mem_cons_self a as)
      have hrest := ih fun b hb => h b (List.mem_cons_of_mem a hb)
      simp [exceptMap, ha, hrest]

theorem exceptMap_error (f : α → Except PyErr β) :
    ∀ l : List α, ∀ e, exceptMap f l = .error e → ∃ a ∈ l, f a = .error e := by
  intro l
  induction l with
  | nil => intro e h; simp [exceptMap] at h
  | cons a as ih =>
      intro e h
      rcases hfa : f a with e' | b
      · simp only [exceptMap, hfa, Except.error.injEq] at h
        subst h
        exact ⟨a, List.mem_cons_self a as, hfa⟩
      · rcases hrest : exceptMap f as with e' | bs
        · simp only [exceptMap, hfa, hrest, Except.error.injEq] at h
          subst h
          obtain ⟨c, hc, hce⟩ := ih _ hrest
          exact ⟨c, List.mem_cons_of_mem a hc, hce⟩
        · simp [exceptMap, hfa, hrest] at h

theorem zipWith3_maps (f : ℚ → ℚ → ℚ → Triple) (g1 g2 g3 : α → ℚ) :
    ∀ l : List α,
      zipWith3 f (l.map g1) (l.map g2) (l.map g3) =
        l.map fun x => f (g1 x) (g2 x) (g3 x) := by
  intro l
  induction l with
  | nil => rfl
  | cons a as ih => simp [zipWith3, ih]

theorem zipWith3_replicate (f : ℚ → ℚ → ℚ → Triple) (a b c : ℚ) :
    ∀ n, zipWith3 f (List.replicate n a) (List.replicate n b) (List.replicate n c) =
      List.replicate n (f a b c) := by
  intro n
  induction n with
  | zero => rfl
  | succ m ih => simp [List.replicate_succ, zipWith3, ih]

/-! Lemmas about the position arrays. -/

theorem posList_getD (n : ℕ) (j : ℕ) (hj : j < n) :
    (posList n).getD j 0 = (j : ℚ) / ((n : ℚ) - 1) := by
  rw [posList, List.getD_eq_getElem?_getD, List.getElem?_map, List.getElem?_range hj]
  rfl

theorem posList_length (n : ℕ) : (posList n).length = n := by
  rw [posList, List.length_map, List.length_range]

theorem posList_chain' (n : ℕ) (hn : 2 ≤ n) :
    List.Chain' (· < ·) (posList n) := by
  rw [posList, List.chain'_map]
  have h1 : (0:ℚ) < (n : ℚ) - 1 := by
    have : (2:ℚ) ≤ (n:ℚ) := by exact_mod_cast hn
    linarith
  obtain ⟨m, rfl⟩ : ∃ m, n = m + 1 := ⟨n - 1, by omega⟩
  rw [List.chain'_range_succ]
  intro i _
  apply (div_lt_div_iff_of_pos_right h1).mpr
  push_cast
  linarith

theorem xxOf_eq_map_some (K : ℕ) (hK : 2 ≤ K) :
    xxOf K = (posList K).map some := by
  have h1 : ((K : ℚ) - 1) ≠ 0 := by
    have : (2:ℚ) ≤ (K:ℚ) := by exact_mod_cast hK
    intro h; linarith
  rw [xxOf, posList, List.map_map]
  apply List.map_congr_left
  intro i _
  simp [npDiv, h1]

/-! Lemmas about the located index `np.where(xx<=x)[0][-1]`. -/

theorem lastIdxLE_none (x : ℚ) :
    ∀ xx : List (Option ℚ), (∀ v ∈ xx, optLE v x = false) → lastIdxLE x xx = none := by
  intro xx
  induction xx with
  | nil => intro _; rfl
  | cons v vs ih =>
      intro h
      have hv := h v (List.mem_cons_self v vs)
      have hrest := ih fun w hw => h w (List.mem_cons_of_mem v hw)
      simp [lastIdxLE, hrest, hv]

theorem lastIdxLE_isSome (x a : ℚ) (t : List (Option ℚ)) (ha : a ≤ x) :
    ∃ j, lastIdxLE x (some a :: t) = some j := by
  rw [lastIdxLE]
  rcases h : lastIdxLE x t with _ | j
  · exact ⟨0, by simp [optLE, ha]⟩
  · exact ⟨j + 1, rfl⟩

theorem lastIdxLE_lt_length (x : ℚ) :
    ∀ (xx : List (Option ℚ)) (j : ℕ), lastIdxLE x xx = some j → j < xx.length := by
  intro xx
  induction xx with
  | nil => intro j h; simp [lastIdxLE] at h
  | cons v vs ih =>
      intro j h
      rw [lastIdxLE] at h
      rcases hrest : lastIdxLE x vs with _ | k <;> rw [hrest] at h
      · by_cases hv : optLE v x
        · simp only [hv, if_true] at h
          injection h with h
          subst h
          simp
        · simp only [hv, if_false] at h
          exact absurd h (by simp)
      · injection h with h
        subst h
        have := ih k hrest
        simp only [List.length_cons]
        omega

/-- Locating the enclosing segment: on a strictly increasing rational position
list, if `xs[idx] ≤ x` and (when a next position exists) `x < xs[idx+1]`, the
source's `np.where(xx<=x)[0][-1]` finds exactly `idx`. -/
theorem lastIdxLE_eq (x : ℚ) :
    ∀ (xs : List ℚ) (idx : ℕ), List.Chain' (· < ·) xs → idx < xs.length →
      xs.getD idx 0 ≤ x → (idx + 1 < xs.length → x < xs.getD (idx + 1) 0) →
      lastIdxLE x (xs.map some) = some idx := by
  intro xs
  induction xs with
  | nil => intro idx _ h; simp at h
  | cons a t ih =>
      intro idx hchain hlen hle hnext
      match idx with
      | 0 =>
          have hax : a ≤ x := by simpa using hle
          have htail : ∀ v ∈ t.map some, optLE v x = false := by
            intro v hv
            obtain ⟨w, hw, rfl⟩ := List.mem_map.mp hv
            have hxw : x < w := by
              have ht : t ≠ [] := List.ne_nil_of_mem hw
              obtain ⟨b, t', rfl⟩ := List.exists_cons_of_ne_nil ht
              have hxb : x < b := by
                have := hnext (by simp only [List.length_cons]; omega)
                simpa using this
              rcases List.mem_cons.mp hw with rfl | hw'
              · exact hxb
              · have hpair : List.Pairwise (· < ·) (b :: t') :=
                  ((List.chain'_iff_pairwise).mp hchain).of_cons
                exact lt_trans hxb (List.rel_of_pairwise_cons hpair hw')
            simp only [optLE, decide_eq_false_iff_not, not_le]
            exact hxw
          rw [List.map_cons, lastIdxLE, lastIdxLE_none x _ htail]
          simp [optLE, hax]
      | idx + 1 =>
          have hchain' : List.Chain' (· < ·) t := hchain.tail
          have hlen' : idx < t.length := by simpa using hlen
          have hle' : t.getD idx 0 ≤ x := by simpa using hle
          have hnext' : idx + 1 < t.length → x < t.getD (idx + 1) 0 := by
            intro h
            have := hnext (by simp only [List.length_cons]; omega)
            simpa using this
          have := ih idx hchain' hlen' hle' hnext'
          rw [List.map_cons, lastIdxLE, this]

/-! Lemmas about `np_interp_aux`. -/

theorem chain'_getD_lt (l : List ℚ) (hc : List.Chain' (· < ·) l) {i j : ℕ}
    (hij : i < j) (hj : j < l.length) : l.getD i 0 < l.getD j 0 := by
  have hp : List.Pairwise (· < ·) l := (List.chain'_iff_pairwise).mp hc
  have hi : i < l.length := lt_trans hij hj
  rw [List.getD_eq_get l 0 hi, List.getD_eq_get l 0 hj]
  exact List.pairwise_iff_get.mp hp ⟨i, hi⟩ ⟨j, hj⟩ hij

theorem chain'_getD_le (l : List ℚ) (hc : List.Chain' (· < ·) l) {i j : ℕ}
    (hij : i ≤ j) (hj : j < l.length) : l.getD i 0 ≤ l.getD j 0 := by
  rcases Nat.lt_or_ge i j with h | h
  · exact le_of_lt (chain'_getD_lt l hc h hj)
  · have : i = j := le_antisymm hij h
    rw [this]

/-- Query at or below the first of at least one sample point: the first value
(numpy's left clamp; also the one-point shortcut). -/
theorem np_interp_aux_head (x a : ℚ) (xs : List ℚ) (f1 : ℚ) (fs : List ℚ)
    (hlen : fs.length = xs.length) (hx : x ≤ a) :
    np_interp_aux x ((a :: xs).map some) (f1 :: fs) = f1 := by
  cases xs with
  | nil => rfl
  | cons b xs' =>
      cases fs with
      | nil => simp at hlen
      | cons f2 fs' => simp [np_interp_aux, hx]

/-- The value of `np.interp` on the segment that encloses the query point:
the linear-interpolation formula between the segment's two sample values. -/
theorem np_interp_aux_seg (x : ℚ) :
    ∀ (idx : ℕ) (xs fs : List ℚ), List.Chain' (· < ·) xs → fs.length = xs.length →
      idx + 1 < xs.length → xs.getD idx 0 ≤ x → x < xs.getD (idx + 1) 0 →
      np_interp_aux x (xs.map some) fs =
        fs.getD idx 0 + (fs.getD (idx + 1) 0 - fs.getD idx 0) * (x - xs.getD idx 0)
          / (xs.getD (idx + 1) 0 - xs.getD idx 0) := by
  intro idx
  induction idx with
  | zero =>
      intro xs fs hchain hlen hl hle hlt
      rcases xs with _ | ⟨x1, _ | ⟨x2, rest⟩⟩
      · simp at hl
      · simp at hl
      rcases fs with _ | ⟨f1, _ | ⟨f2, fs'⟩⟩
      · simp at hlen
      · simp at hlen
      simp only [List.getD_cons_zero, List.getD_cons_succ] at hle hlt ⊢
      by_cases hx1 : x ≤ x1
      · have hxx1 : x = x1 := le_antisymm hx1 hle
        subst hxx1
        simp [np_interp_aux, le_refl]
      · simp only [List.map_cons, np_interp_aux, hx1, if_false, le_of_lt hlt, if_true]
  | succ k ih =>
      intro xs fs hchain hlen hl hle hlt
      rcases xs with _ | ⟨x1, _ | ⟨x2, rest⟩⟩
      · simp at hl
      · simp at hl
      rcases fs with _ | ⟨f1, _ | ⟨f2, fs'⟩⟩
      · simp at hlen
      · simp at hlen
      simp only [List.getD_cons_succ] at hle hlt ⊢
      have hchainT : List.Chain' (· < ·) (x2 :: rest) := hchain.tail
      have hlenT : (f2 :: fs').length = (x2 :: rest).length := by
        simpa using hlen
      have hlT : k + 1 < (x2 :: rest).length := by
        simp only [List.length_cons] at hl ⊢
        omega
      have hx2le : x2 ≤ x := by
        calc x2 = (x2 :: rest).getD 0 0 := rfl
          _ ≤ (x2 :: rest).getD k 0 := chain'_getD_le _ hchainT (Nat.zero_le k)
                (lt_trans (Nat.lt_succ_self k) hlT)
          _ ≤ x := hle
      have hx12 : x1 < x2 := (List.chain'_cons.mp hchain).1
      have hx1lt : x1 < x := lt_of_lt_of_le hx12 hx2le
      by_cases hx2 : x ≤ x2
      · have hxx2 : x = x2 := le_antisymm hx2 hx2le
        rcases k with _ | k'
        · have hne : x2 - x1 ≠ 0 := by intro h; linarith
          subst hxx2
          simp only [List.map_cons, np_interp_aux, not_le.mpr hx1lt, if_false,
            le_refl, if_true, List.getD_cons_zero, List.getD_cons_succ]
          rw [mul_div_assoc, div_self hne, sub_self, mul_zero, zero_div,
            add_zero, mul_one]
          ring
        · exfalso
          have hgt : (x2 :: rest).getD 0 0 < (x2 :: rest).getD (k' + 1) 0 :=
            chain'_getD_lt _ hchainT (Nat.succ_pos k')
              (lt_trans (Nat.lt_succ_self (k' + 1)) hlT)
          simp only [List.getD_cons_zero] at hgt
          have : x2 < x := lt_of_lt_of_le hgt hle
          linarith
      · have hrec := ih (x2 :: rest) (f2 :: fs') hchainT hlenT hlT
          (by simpa using hle) (by simpa using hlt)
        simp only [List.map_cons, np_interp_aux, not_le.mpr hx1lt, if_false, hx2,
          List.getD_cons_succ]
        simpa using hrec

/-- Query at or above the last sample point: the last value (numpy's right
clamp). -/
theorem np_interp_aux_last (x : ℚ) :
    ∀ (xs fs : List ℚ), List.Chain' (· < ·) xs → fs.length = xs.length →
      0 < xs.length → xs.getD (xs.length - 1) 0 ≤ x →
      np_interp_aux x (xs.map some) fs = fs.getD (fs.length - 1) 0 := by
  intro xs
  induction xs with
  | nil => intro fs _ _ h; simp at h
  | cons x1 t ih =>
      intro fs hchain hlen _ hx
      rcases t with _ | ⟨x2, rest⟩
      · rcases fs with _ | ⟨f1, fs'⟩
        · simp at hlen
        · have : fs' = [] := by simpa using hlen
          subst this
          rfl
      · rcases fs with _ | ⟨f1, _ | ⟨f2, fs'⟩⟩
        · simp at hlen
        · simp at hlen
        · have hchainT : List.Chain' (· < ·) (x2 :: rest) := hchain.tail
          have hx12 : x1 < x2 := (List.chain'_cons.mp hchain).1
          have hlast : (x1 :: x2 :: rest).getD ((x1 :: x2 :: rest).length - 1) 0 =
              (x2 :: rest).getD ((x2 :: rest).length - 1) 0 := by
            simp [List.getD_cons_succ]
          rw [hlast] at hx
          have hx2le : x2 ≤ x := by
            calc x2 = (x2 :: rest).getD 0 0 := rfl
              _ ≤ (x2 :: rest).getD ((x2 :: rest).length - 1) 0 :=
                  chain'_getD_le _ hchainT (Nat.zero_le _) (by simp)
              _ ≤ x := hx
          have hx1lt : x1 < x := lt_of_lt_of_le hx12 hx2le
          have hrec := ih (f2 :: fs') hchainT (by simpa using hlen) (by simp) hx
          rcases rest with _ | ⟨x3, rest'⟩
          · have hfs' : fs' = [] := by simpa using hlen
            subst hfs'
            by_cases hx2 : x ≤ x2
            · have hxx2 : x = x2 := le_antisymm hx2 hx2le
              have hne : x2 - x1 ≠ 0 := by intro hz; linarith
              subst hxx2
              simp only [List.map_cons, np_interp_aux, not_le.mpr hx1lt, if_false,
                le_refl, if_true]
              rw [mul_div_assoc, div_self hne, mul_one]
              simp [List.getD_cons_succ]
            · simp only [List.map_cons, np_interp_aux, not_le.mpr hx1lt, if_false, hx2]
              simpa using hrec
          · have hx2ltl : x2 < x := by
              have : (x2 :: x3 :: rest').getD 0 0 < (x2 :: x3 :: rest').getD
                  ((x2 :: x3 :: rest').length - 1) 0 :=
                chain'_getD_lt _ hchainT (by simp) (by simp)
              simp only [List.getD_cons_zero] at this
              exact lt_of_lt_of_le this hx
            simp only [List.map_cons, np_interp_aux, not_le.mpr hx1lt, if_false,
              not_le.mpr hx2ltl]
            simpa using hrec

/-- The interpolated value never escapes `[0,1]` when all sample values lie in
`[0,1]` (every arm of `np_interp_aux` returns either a sample value, `0`, or a
convex combination of the two segment endpoints). -/
theorem np_interp_aux_mem (x : ℚ) :
    ∀ (xp : List (Option ℚ)) (fs : List ℚ), (∀ f ∈ fs, 0 ≤ f ∧ f ≤ 1) →
      0 ≤ np_interp_aux x xp fs ∧ np_interp_aux x xp fs ≤ 1 := by
  intro xp
  induction xp with
  | nil => intro fs _; constructor <;> simp [np_interp_aux]
  | cons v vs ih =>
      intro fs hf
      rcases vs with _ | ⟨v2, vs'⟩
      · rcases fs with _ | ⟨f1, fs'⟩
        · constructor <;> simp [np_interp_aux]
        · have h1 := hf f1 (by simp)
          have : np_interp_aux x [v] (f1 :: fs') = f1 := by simp [np_interp_aux]
          rw [this]
          exact h1
      · rcases v with _ | x1
        · have : np_interp_aux x (none :: v2 :: vs') fs = 0 := by
            rcases fs with _ | ⟨f1, fs'⟩ <;> simp [np_interp_aux]
          rw [this]
          norm_num
        · rcases v2 with _ | x2
          · have : np_interp_aux x (some x1 :: none :: vs') fs = 0 := by
              rcases fs with _ | ⟨f1, _ | ⟨f2, fs'⟩⟩ <;> simp [np_interp_aux]
            rw [this]
            norm_num
          · rcases fs with _ | ⟨f1, _ | ⟨f2, fs'⟩⟩
            · constructor <;> simp [np_interp_aux]
            · have : np_interp_aux x (some x1 :: some x2 :: vs') [f1] = 0 := by
                simp [np_interp_aux]
              rw [this]
              norm_num
            · have h1 := hf f1 (by simp)
              have h2 := hf f2 (by simp)
              have hrec := ih (f2 :: fs') fun f hmemf => hf f (by simp [hmemf])
              simp only [np_interp_aux]
              by_cases hx1 : x ≤ x1
              · simp only [hx1, if_true]
                exact h1
              · by_cases hx2 : x ≤ x2
                · simp only [hx1, if_false, hx2, if_true]
                  have hd : 0 < x2 - x1 := by
                    have := not_le.mp hx1
                    linarith
                  have ht0 : 0 ≤ (x - x1) / (x2 - x1) :=
                    div_nonneg (by linarith [not_le.mp hx1]) (le_of_lt hd)
                  have ht1 : (x - x1) / (x2 - x1) ≤ 1 := by
                    rw [div_le_one hd]
                    linarith
                  rw [mul_div_assoc]
                  constructor
                  · nlinarith [mul_nonneg h2.1 ht0,
                      mul_nonneg h1.1 (by linarith : (0:ℚ) ≤ 1 - (x - x1) / (x2 - x1))]
                  · nlinarith [mul_nonneg (by linarith : (0:ℚ) ≤ 1 - f2) ht0,
                      mul_nonneg (by linarith : (0:ℚ) ≤ 1 - f1)
                        (by linarith : (0:ℚ) ≤ 1 - (x - x1) / (x2 - x1))]
                · simp only [hx1, hx2, if_false]
                  exact hrec

/-! Lemmas about the circular hue interpolation. -/

theorem pyMod1_mem (q : ℚ) : 0 ≤ pyMod1 q ∧ pyMod1 q < 1 :=
  ⟨Int.fract_nonneg q, Int.fract_lt_one q⟩

theorem pyMod1_eq_self {q : ℚ} (h0 : 0 ≤ q) (h1 : q < 1) : pyMod1 q = q :=
  Int.fract_eq_self.mpr ⟨h0, h1⟩

theorem pyMod1_add_one {q : ℚ} (h0 : 0 ≤ q) (h1 : q < 1) : pyMod1 (q + 1) = q := by
  have : pyMod1 (q + 1) = pyMod1 q := by
    have := Int.fract_add_int q 1
    simpa [pyMod1] using this
  rw [this, pyMod1_eq_self h0 h1]

theorem posList_cons (n : ℕ) (hn : 2 ≤ n) :
    ∃ t, posList n = 0 :: t ∧ t.length = n - 1 := by
  obtain ⟨m, rfl⟩ : ∃ m, n = m + 1 := ⟨n - 1, by omega⟩
  rw [posList, List.range_succ_eq_map, List.map_cons]
  refine ⟨_, by rw [Nat.cast_zero, zero_div], by simp⟩

theorem circ_val_mem (xx : List (Option ℚ)) (hh : List ℚ) (x : ℚ) (idx : ℕ)
    (hmem : ∀ h ∈ hh, 0 ≤ h ∧ h ≤ 1) (hne : hh ≠ []) :
    0 ≤ circ_val xx hh x idx ∧ circ_val xx hh x idx ≤ 1 := by
  have hlast : 0 ≤ hh.getD (hh.length - 1) 0 ∧ hh.getD (hh.length - 1) 0 ≤ 1 := by
    have hlt : hh.length - 1 < hh.length := by
      cases hh with
      | nil => exact absurd rfl hne
      | cons a t => simp
    apply hmem
    rw [List.getD_eq_getElem hh 0 hlt]
    exact List.getElem_mem hlt
  rw [circ_val]
  split
  · exact hlast
  · split
    · obtain ⟨hm0, hm1⟩ := pyMod1_mem (np_interp_aux x xx (hh.set idx (hh.getD idx 0 + 1)))
      exact ⟨hm0, le_of_lt hm1⟩
    · split
      · obtain ⟨hm0, hm1⟩ := pyMod1_mem
          (np_interp_aux x xx (hh.set (idx + 1) (hh.getD (idx + 1) 0 + 1)))
        exact ⟨hm0, le_of_lt hm1⟩
      · exact np_interp_aux_mem x xx hh hmem

theorem circ_pure_mem (xx : List (Option ℚ)) (hh : List ℚ) (x : ℚ)
    (hmem : ∀ h ∈ hh, 0 ≤ h ∧ h ≤ 1) (hne : hh ≠ []) :
    0 ≤ circ_pure xx hh x ∧ circ_pure xx hh x ≤ 1 := by
  rw [circ_pure]
  rcases lastIdxLE x xx with _ | idx
  · norm_num
  · exact circ_val_mem xx hh x idx hmem hne

theorem circ_one_ok (K : ℕ) (hh : List ℚ) (x : ℚ) (hK : 2 ≤ K) (hx : 0 ≤ x) :
    circ_one ((posList K).map some) hh x =
      .ok (circ_pure ((posList K).map some) hh x) := by
  obtain ⟨t, hpt, _⟩ := posList_cons K hK
  rw [hpt, List.map_cons]
  obtain ⟨j, hj⟩ := lastIdxLE_isSome x 0 (t.map some) hx
  rw [circ_one, circ_pure, hj]

/-- At output position `0` (the first of `N ≥ 2` output samples) the circular
interpolation returns the first anchor hue, provided that hue lies in `[0,1)`
(true of every `colorsys` conversion output). -/
theorem circ_pure_at_left (K : ℕ) (hh : List ℚ) (hK : 2 ≤ K) (hlen : hh.length = K)
    (h0 : 0 ≤ hh.getD 0 0) (h1 : hh.getD 0 0 < 1) :
    circ_pure ((posList K).map some) hh 0 = hh.getD 0 0 := by
  have hKq : (0:ℚ) < (K:ℚ) - 1 := by
    have : (2:ℚ) ≤ (K:ℚ) := by exact_mod_cast hK
    linarith
  have hidx : lastIdxLE 0 ((posList K).map some) = some 0 := by
    apply lastIdxLE_eq 0 (posList K) 0 (posList_chain' K hK)
    · rw [posList_length]; omega
    · rw [posList_getD K 0 (by omega)]
      simp
    · intro h
      rw [posList_getD K 1 (by rw [posList_length] at h; omega)]
      push_cast
      positivity
  simp only [circ_pure, hidx]
  have hlen1 : ¬ (0 = hh.length - 1) := by omega
  obtain ⟨hhh, hht, rfl⟩ : ∃ a t, hh = a :: t := by
    cases hh with
    | nil => simp at hlen; omega
    | cons a t => exact ⟨a, t, rfl⟩
  obtain ⟨pt, hpt, hptlen⟩ := posList_cons K hK
  have hplen : (hhh :: hht).length = (posList K).length := by
    rw [posList_length, hlen]
  rw [circ_val]
  rw [if_neg hlen1]
  simp only [List.getD_cons_zero] at h0 h1 ⊢
  split
  · rw [hpt]
    have hset : (hhh :: hht).set 0 (hhh + 1) = (hhh + 1) :: hht := rfl
    rw [hset, np_interp_aux_head 0 0 pt (hhh + 1) hht
      (by rw [hpt] at hplen; simpa using hplen) (le_refl 0)]
    exact pyMod1_add_one h0 h1
  · split
    · rw [hpt]
      have hset : (hhh :: hht).set (0 + 1) ((hhh :: hht).getD (0 + 1) 0 + 1) =
          hhh :: hht.set 0 (hht.getD 0 0 + 1) := by
        cases hht <;> rfl
      rw [hset, np_interp_aux_head 0 0 pt hhh (hht.set 0 (hht.getD 0 0 + 1))
        (by rw [hpt] at hplen; simpa using hplen) (le_refl 0)]
      exact pyMod1_eq_self h0 h1
    · rw [hpt]
      exact np_interp_aux_head 0 0 pt hhh hht
        (by rw [hpt] at hplen; simpa using hplen) (le_refl 0)

/-- At output position `1` (the last of `N ≥ 2` output samples) the circular
interpolation returns the last anchor hue. -/
theorem circ_pure_at_right (K : ℕ) (hh : List ℚ) (hK : 2 ≤ K) (hlen : hh.length = K) :
    circ_pure ((posList K).map some) hh 1 = hh.getD (K - 1) 0 := by
  have hKq : (0:ℚ) < (K:ℚ) - 1 := by
    have : (2:ℚ) ≤ (K:ℚ) := by exact_mod_cast hK
    linarith
  have hidx : lastIdxLE 1 ((posList K).map some) = some (K - 1) := by
    apply lastIdxLE_eq 1 (posList K) (K - 1) (posList_chain' K hK)
    · rw [posList_length]; omega
    · rw [posList_getD K (K - 1) (by omega)]
      have : ((K - 1 : ℕ) : ℚ) = (K:ℚ) - 1 := by
        push_cast [Nat.cast_sub (by omega : 1 ≤ K)]
        ring
      rw [this, div_self (ne_of_gt hKq)]
    · intro h
      rw [posList_length] at h
      omega
  simp only [circ_pure, hidx]
  rw [circ_val]
  rw [if_pos (by omega : K - 1 = hh.length - 1), hlen]

/-! Range lemmas for the colorsys conversions. -/

theorem rgb_to_hsv_bounds (c : Triple) (hc : inUnit c) :
    (0 ≤ (rgb_to_hsv c).1 ∧ (rgb_to_hsv c).1 < 1) ∧
    (0 ≤ (rgb_to_hsv c).2.1 ∧ (rgb_to_hsv c).2.1 ≤ 1) ∧
    (0 ≤ (rgb_to_hsv c).2.2 ∧ (rgb_to_hsv c).2.2 ≤ 1) := by
  obtain ⟨r, g, b⟩ := c
  obtain ⟨hr0, hr1, hg0, hg1, hb0, hb1⟩ := hc
  simp only at hr0 hr1 hg0 hg1 hb0 hb1
  have hmax1 : max r (max g b) ≤ 1 := max_le hr1 (max_le hg1 hb1)
  have hmin0 : 0 ≤ min r (min g b) := le_min hr0 (le_min hg0 hb0)
  have hminmax : min r (min g b) ≤ max r (max g b) :=
    le_trans (min_le_left _ _) (le_max_left _ _)
  simp only [rgb_to_hsv]
  by_cases heq : min r (min g b) = max r (max g b)
  · rw [if_pos heq]
    refine ⟨⟨le_refl 0, by norm_num⟩, ⟨le_refl 0, by norm_num⟩, ?_, hmax1⟩
    calc (0:ℚ) ≤ min r (min g b) := hmin0
      _ ≤ max r (max g b) := hminmax
  · rw [if_neg heq]
    have hlt : min r (min g b) < max r (max g b) := lt_of_le_of_ne hminmax heq
    have hmaxpos : 0 < max r (max g b) := lt_of_le_of_lt hmin0 hlt
    refine ⟨⟨(pyMod1_mem _).1, (pyMod1_mem _).2⟩, ⟨?_, ?_⟩, ?_, hmax1⟩
    · exact div_nonneg (by linarith) (le_of_lt hmaxpos)
    · rw [div_le_one hmaxpos]
      linarith
    · exact le_of_lt hmaxpos

theorem rgb_to_hls_bounds (c : Triple) (hc : inUnit c) :
    (0 ≤ (rgb_to_hls c).1 ∧ (rgb_to_hls c).1 < 1) ∧
    (0 ≤ (rgb_to_hls c).2.1 ∧ (rgb_to_hls c).2.1 ≤ 1) ∧
    (0 ≤ (rgb_to_hls c).2.2 ∧ (rgb_to_hls c).2.2 ≤ 1) := by
  obtain ⟨r, g, b⟩ := c
  obtain ⟨hr0, hr1, hg0, hg1, hb0, hb1⟩ := hc
  simp only at hr0 hr1 hg0 hg1 hb0 hb1
  have hmax1 : max r (max g b) ≤ 1 := max_le hr1 (max_le hg1 hb1)
  have hmin0 : 0 ≤ min r (min g b) := le_min hr0 (le_min hg0 hb0)
  have hminmax : min r (min g b) ≤ max r (max g b) :=
    le_trans (min_le_left _ _) (le_max_left _ _)
  simp only [rgb_to_hls]
  by_cases heq : min r (min g b) = max r (max g b)
  · rw [if_pos heq]
    exact ⟨⟨le_refl 0, by norm_num⟩, ⟨by linarith, by linarith⟩, le_refl 0, by norm_num⟩
  · rw [if_neg heq]
    have hlt : min r (min g b) < max r (max g b) := lt_of_le_of_ne hminmax heq
    by_cases hl : (min r (min g b) + max r (max g b)) / 2 ≤ 1 / 2
    · rw [if_pos hl]
      have hsum : 0 < max r (max g b) + min r (min g b) := by
        have : 0 < max r (max g b) := lt_of_le_of_lt hmin0 hlt
        linarith
      refine ⟨⟨(pyMod1_mem _).1, (pyMod1_mem _).2⟩, ⟨by linarith, by linarith⟩, ?_, ?_⟩
      · exact div_nonneg (by linarith) (le_of_lt hsum)
      · rw [div_le_one hsum]
        linarith
    · rw [if_neg hl]
      have hsum : 0 < 2 - max r (max g b) - min r (min g b) := by
        push_neg at hl
        linarith
      refine ⟨⟨(pyMod1_mem _).1, (pyMod1_mem _).2⟩, ⟨by linarith, by linarith⟩, ?_, ?_⟩
      · exact div_nonneg (by linarith) (le_of_lt hsum)
      · rw [div_le_one hsum]
        linarith

theorem hsv_to_rgb_mem (h s v : ℚ) (h0 : 0 ≤ h) (h1 : h ≤ 1)
    (s0 : 0 ≤ s) (s1 : s ≤ 1) (v0 : 0 ≤ v) (v1 : v ≤ 1) :
    inUnit (hsv_to_rgb (h, s, v)) := by
  have hp : pyInt (h * 6) = ⌊h * 6⌋ := by
    rw [pyInt, if_neg (not_lt.mpr (by positivity : (0:ℚ) ≤ h * 6))]
  have hf0 : 0 ≤ h * 6 - (⌊h * 6⌋ : ℚ) := by linarith [Int.floor_le (h * 6)]
  have hf1 : h * 6 - (⌊h * 6⌋ : ℚ) < 1 := by linarith [Int.lt_floor_add_one (h * 6)]
  have hsf0 : 0 ≤ s * (h * 6 - (⌊h * 6⌋ : ℚ)) := mul_nonneg s0 hf0
  have hsf1 : s * (h * 6 - (⌊h * 6⌋ : ℚ)) ≤ 1 := by nlinarith
  have hsg0 : 0 ≤ s * (1 - (h * 6 - (⌊h * 6⌋ : ℚ))) := mul_nonneg s0 (by linarith)
  have hsg1 : s * (1 - (h * 6 - (⌊h * 6⌋ : ℚ))) ≤ 1 := by nlinarith
  have hP0 : 0 ≤ v * (1 - s) := mul_nonneg v0 (by linarith)
  have hP1 : v * (1 - s) ≤ 1 := by nlinarith
  have hQ0 : 0 ≤ v * (1 - s * (h * 6 - (⌊h * 6⌋ : ℚ))) := mul_nonneg v0 (by linarith)
  have hQ1 : v * (1 - s * (h * 6 - (⌊h * 6⌋ : ℚ))) ≤ 1 := by nlinarith
  have hT0 : 0 ≤ v * (1 - s * (1 - (h * 6 - (⌊h * 6⌋ : ℚ)))) :=
    mul_nonneg v0 (by linarith)
  have hT1 : v * (1 - s * (1 - (h * 6 - (⌊h * 6⌋ : ℚ)))) ≤ 1 := by nlinarith
  simp only [hsv_to_rgb, hp, inUnit]
  split_ifs
  · exact ⟨v0, v1, v0, v1, v0, v1⟩
  · exact ⟨v0, v1, hT0, hT1, hP0, hP1⟩
  · exact ⟨hQ0, hQ1, v0, v1, hP0, hP1⟩
  · exact ⟨hP0, hP1, v0, v1, hT0, hT1⟩
  · exact ⟨hP0, hP1, hQ0, hQ1, v0, v1⟩
  · exact ⟨hT0, hT1, hP0, hP1, hQ0, hQ1⟩
  · exact ⟨v0, v1, hP0, hP1, hQ0, hQ1⟩
  · exact ⟨le_refl 0, by norm_num, le_refl 0, by norm_num, le_refl 0, by norm_num⟩

theorem hls_v_mem (m1 m2 hue : ℚ) (hm0 : 0 ≤ m1) (hm12 : m1 ≤ m2) (hm1 : m2 ≤ 1) :
    0 ≤ hls_v m1 m2 hue ∧ hls_v m1 m2 hue ≤ 1 := by
  obtain ⟨hu0, hu1⟩ := pyMod1_mem hue
  simp only [hls_v]
  split_ifs with ha hb hc
  · constructor
    · nlinarith
    · nlinarith
  · exact ⟨by linarith, hm1⟩
  · constructor
    · nlinarith
    · nlinarith
  · exact ⟨hm0, by linarith⟩

theorem hls_to_rgb_mem (h l s : ℚ) (l0 : 0 ≤ l) (l1 : l ≤ 1)
    (s0 : 0 ≤ s) (s1 : s ≤ 1) :
    inUnit (hls_to_rgb (h, l, s)) := by
  simp only [hls_to_rgb, inUnit]
  split_ifs with hs hl
  · exact ⟨l0, l1, l0, l1, l0, l1⟩
  · have hm2a : l ≤ l * (1 + s) := by nlinarith
    have hm2b : l * (1 + s) ≤ 1 := by nlinarith
    have hm1a : 0 ≤ 2 * l - l * (1 + s) := by nlinarith
    have hm1b : 2 * l - l * (1 + s) ≤ l * (1 + s) := by nlinarith
    refine ⟨(hls_v_mem _ _ _ hm1a hm1b hm2b).1, (hls_v_mem _ _ _ hm1a hm1b hm2b).2,
      (hls_v_mem _ _ _ hm1a hm1b hm2b).1, (hls_v_mem _ _ _ hm1a hm1b hm2b).2,
      (hls_v_mem _ _ _ hm1a hm1b hm2b).1, (hls_v_mem _ _ _ hm1a hm1b hm2b).2⟩
  · push_neg at hl
    have hm2a : l ≤ l + s - l * s := by nlinarith
    have hm2b : l + s - l * s ≤ 1 := by nlinarith
    have hm1a : 0 ≤ 2 * l - (l + s - l * s) := by nlinarith
    have hm1b : 2 * l - (l + s - l * s) ≤ l + s - l * s := by nlinarith
    refine ⟨(hls_v_mem _ _ _ hm1a hm1b hm2b).1, (hls_v_mem _ _ _ hm1a hm1b hm2b).2,
      (hls_v_mem _ _ _ hm1a hm1b hm2b).1, (hls_v_mem _ _ _ hm1a hm1b hm2b).2,
      (hls_v_mem _ _ _ hm1a hm1b hm2b).1, (hls_v_mem _ _ _ hm1a hm1b hm2b).2⟩

/-! Structure of a successful `lut_core` run. -/

theorem np_interp_ok (x : ℚ) (xp : List (Option ℚ)) (fp : List ℚ) (h : xp ≠ []) :
    np_interp x xp fp = .ok (np_interp_aux x xp fp) := by
  rw [np_interp, if_neg]
  simpa using h

theorem posList_nonneg (n : ℕ) (hn : 2 ≤ n) : ∀ x ∈ posList n, 0 ≤ x := by
  intro x hx
  rw [posList] at hx
  obtain ⟨j, _, rfl⟩ := List.mem_map.mp hx
  have h1 : (0:ℚ) < (n : ℚ) - 1 := by
    have : (2:ℚ) ≤ (n:ℚ) := by exact_mod_cast hn
    linarith
  positivity

theorem posList_map_some_ne_nil (n : ℕ) (hn : 2 ≤ n) :
    (posList n).map some ≠ [] := by
  obtain ⟨t, hpt, _⟩ := posList_cons n hn
  rw [hpt]
  simp

/-- With at least two anchors and at least two output colors, `lut_core`
succeeds, and the ramp is the pointwise image of the output positions:
each channel interpolated (circularly for the first channel when `circ`),
then inverted back. -/
theorem lut_core_ok (rgbs : List Triple) (N : ℕ) (convert : Triple → Triple)
    (circ : Bool) (invert : ℚ → ℚ → ℚ → Triple)
    (hK : 2 ≤ rgbs.length) (hN : 2 ≤ N) :
    lut_core rgbs N convert circ invert = .ok ((posList N).map fun x =>
      invert
        (if circ then
          circ_pure ((posList rgbs.length).map some)
            ((rgbs.map convert).map fun t => t.1) x
         else
          np_interp_aux x ((posList rgbs.length).map some)
            ((rgbs.map convert).map fun t => t.1))
        (np_interp_aux x ((posList rgbs.length).map some)
          ((rgbs.map convert).map fun t => t.2.1))
        (np_interp_aux x ((posList rgbs.length).map some)
          ((rgbs.map convert).map fun t => t.2.2))) := by
  have hlen1 : ((rgbs.map convert).map fun t => (t : Triple).1).length = rgbs.length := by
    simp
  have hxx : xxOf ((rgbs.map convert).map fun t => (t : Triple).1).length =
      (posList rgbs.length).map some := by
    rw [hlen1, xxOf_eq_map_some rgbs.length hK]
  have hpne : (posList rgbs.length).map some ≠ [] := posList_map_some_ne_nil _ hK
  simp only [lut_core, hxx]
  have hS : exceptMap (fun x => np_interp x ((posList rgbs.length).map some)
      ((rgbs.map convert).map fun t => t.2.1)) (posList N) =
      .ok ((posList N).map fun x => np_interp_aux x ((posList rgbs.length).map some)
        ((rgbs.map convert).map fun t => t.2.1)) :=
    exceptMap_congr_ok _ _ _ fun a _ => np_interp_ok a _ _ hpne
  have hV : exceptMap (fun x => np_interp x ((posList rgbs.length).map some)
      ((rgbs.map convert).map fun t => t.2.2)) (posList N) =
      .ok ((posList N).map fun x => np_interp_aux x ((posList rgbs.length).map some)
        ((rgbs.map convert).map fun t => t.2.2)) :=
    exceptMap_congr_ok _ _ _ fun a _ => np_interp_ok a _ _ hpne
  cases circ
  · have hH : exceptMap (fun x => np_interp x ((posList rgbs.length).map some)
        ((rgbs.map convert).map fun t => t.1)) (posList N) =
        .ok ((posList N).map fun x => np_interp_aux x ((posList rgbs.length).map some)
          ((rgbs.map convert).map fun t => t.1)) :=
      exceptMap_congr_ok _ _ _ fun a _ => np_interp_ok a _ _ hpne
    simp only [Bool.false_eq_true, if_false, hH, hS, hV]
    rw [zipWith3_maps]
  · have hH : circular_interp (posList N) ((posList rgbs.length).map some)
        ((rgbs.map convert).map fun t => t.1) =
        .ok ((posList N).map fun x => circ_pure ((posList rgbs.length).map some)
          ((rgbs.map convert).map fun t => t.1) x) := by
      rw [circular_interp]
      exact exceptMap_congr_ok _ _ _ fun a ha =>
        circ_one_ok rgbs.length _ a hK (posList_nonneg N hN a ha)
    simp only [if_true, hH, hS, hV]
    rw [zipWith3_maps]

/-! Branch selection of `lut_colors`, and error classification. -/

theorem lut_colors_rgb (colors : List Triple) (N : ℕ) :
    lut_colors colors N "rgb" =
      lut_core colors N (fun c => c) false (fun x y z => (x, y, z)) := by
  rw [lut_colors, if_pos rfl]

theorem lut_colors_hsv (colors : List Triple) (N : ℕ) :
    lut_colors colors N "hsv" =
      lut_core colors N rgb_to_hsv true (fun h s v => hsv_to_rgb (h, s, v)) := by
  rw [lut_colors, if_neg (by decide), if_pos rfl]

theorem lut_colors_hls (colors : List Triple) (N : ℕ) :
    lut_colors colors N "hls" =
      lut_core colors N rgb_to_hls true (fun h l s => hls_to_rgb (h, l, s)) := by
  rw [lut_colors, if_neg (by decide), if_neg (by decide), if_pos rfl]

theorem np_interp_error (x : ℚ) (xp : List (Option ℚ)) (fp : List ℚ) (e : PyErr)
    (h : np_interp x xp fp = .error e) :
    e = .valueError "array of sample points is empty" := by
  rw [np_interp] at h
  split at h
  · injection h with h'
    exact h'.symm
  · exact absurd h (by simp)

theorem circ_one_error (xx : List (Option ℚ)) (hh : List ℚ) (x : ℚ) (e : PyErr)
    (h : circ_one xx hh x = .error e) :
    e = .indexError "index -1 is out of bounds for axis 0 with size 0" := by
  rw [circ_one] at h
  split at h
  · injection h with h'
    exact h'.symm
  · exact absurd h (by simp)

/-- Every error `lut_core` can produce is one of numpy's two: the
`ValueError` of `np.interp` on an empty sample array, or the `IndexError` of
indexing an empty `np.where` result. -/
theorem lut_core_error (rgbs : List Triple) (N : ℕ) (cv : Triple → Triple)
    (circ : Bool) (inv : ℚ → ℚ → ℚ → Triple) (e : PyErr)
    (h : lut_core rgbs N cv circ inv = .error e) :
    e = .valueError "array of sample points is empty" ∨
    e = .indexError "index -1 is out of bounds for axis 0 with size 0" := by
  simp only [lut_core] at h
  split at h
  next e1 heq =>
    injection h with h'
    subst h'
    cases circ
    · simp only [Bool.false_eq_true, if_false] at heq
      obtain ⟨a, _, ha⟩ := exceptMap_error _ _ _ heq
      exact Or.inl (np_interp_error _ _ _ _ ha)
    · simp only [if_true] at heq
      rw [circular_interp] at heq
      obtain ⟨a, _, ha⟩ := exceptMap_error _ _ _ heq
      exact Or.inr (circ_one_error _ _ _ _ ha)
  next l1 heq =>
    split at h
    next e2 heq2 =>
      injection h with h'
      subst h'
      obtain ⟨a, _, ha⟩ := exceptMap_error _ _ _ heq2
      exact Or.inl (np_interp_error _ _ _ _ ha)
    next l2 heq2 =>
      split at h
      next e3 heq3 =>
        injection h with h'
        subst h'
        obtain ⟨a, _, ha⟩ := exceptMap_error _ _ _ heq3
        exact Or.inl (np_interp_error _ _ _ _ ha)
      next l3 heq3 => exact absurd h (by simp)

/-! Endpoint helpers. -/

theorem getD_map_map (rgbs : List Triple) (cv : Triple → Triple) (f : Triple → ℚ)
    (i : ℕ) (hi : i < rgbs.length) (d : Triple) :
    ((rgbs.map cv).map f).getD i 0 = f (cv (rgbs.getD i d)) := by
  have h1 : i < ((rgbs.map cv).map f).length := by simpa using hi
  rw [List.getD_eq_getElem _ 0 h1, List.getD_eq_getElem _ d hi]
  simp

theorem np_interp_aux_at0 (K : ℕ) (fp : List ℚ) (hK : 2 ≤ K) (hlen : fp.length = K) :
    np_interp_aux 0 ((posList K).map some) fp = fp.getD 0 0 := by
  obtain ⟨t, hpt, htlen⟩ := posList_cons K hK
  obtain ⟨f1, fs, rfl⟩ : ∃ a s, fp = a :: s := by
    cases fp with
    | nil => simp at hlen; omega
    | cons a s => exact ⟨a, s, rfl⟩
  rw [hpt]
  rw [np_interp_aux_head 0 0 t f1 fs (by simp at hlen; omega) (le_refl 0)]
  rfl

theorem np_interp_aux_at1 (K : ℕ) (fp : List ℚ) (hK : 2 ≤ K) (hlen : fp.length = K) :
    np_interp_aux 1 ((posList K).map some) fp = fp.getD (K - 1) 0 := by
  have hKq : (0:ℚ) < (K : ℚ) - 1 := by
    have : (2:ℚ) ≤ (K:ℚ) := by exact_mod_cast hK
    linarith
  have hlast : (posList K).getD ((posList K).length - 1) 0 ≤ 1 := by
    rw [posList_length, posList_getD K (K - 1) (by omega)]
    have hcast : ((K - 1 : ℕ) : ℚ) = (K:ℚ) - 1 := by
      push_cast [Nat.cast_sub (by omega : 1 ≤ K)]
      ring
    rw [hcast, div_self (ne_of_gt hKq)]
  rw [np_interp_aux_last 1 (posList K) fp (posList_chain' K hK)
    (by rw [posList_length, hlen]) (by rw [posList_length]; omega) hlast, hlen]

theorem posList_head (n : ℕ) (hn : 2 ≤ n) : (posList n).head? = some 0 := by
  obtain ⟨t, hpt, _⟩ := posList_cons n hn
  rw [hpt]
  rfl

theorem posList_getLast (n : ℕ) (hn : 2 ≤ n) : (posList n).getLast? = some 1 := by
  have hKq : (0:ℚ) < (n : ℚ) - 1 := by
    have : (2:ℚ) ≤ (n:ℚ) := by exact_mod_cast hn
    linarith
  rw [List.getLast?_eq_getElem?, posList_length, posList, List.getElem?_map,
    List.getElem?_range (by omega : n - 1 < n)]
  simp only [Option.map_some']
  have hcast : ((n - 1 : ℕ) : ℚ) = (n:ℚ) - 1 := by
    push_cast [Nat.cast_sub (by omega : 1 ≤ n)]
    ring
  rw [hcast, div_self (ne_of_gt hKq)]

theorem triple_eta (a : Triple) : (a.1, a.2.1, a.2.2) = a := rfl

theorem getD_set_self (l : List ℚ) (i : ℕ) (v : ℚ) (h : i < l.length) :
    (l.set i v).getD i 0 = v := by
  rw [List.getD_eq_getElem _ 0 (by simpa using h)]
  exact List.getElem_set_self _

theorem getD_set_ne (l : List ℚ) (i j : ℕ) (v : ℚ) (hne : i ≠ j) (h : j < l.length) :
    (l.set i v).getD j 0 = l.getD j 0 := by
  rw [List.getD_eq_getElem _ 0 (by simpa using h), List.getD_eq_getElem _ 0 h]
  exact List.getElem_set_ne hne _

/-- Claim C1: for every ramp built in HSV or HLS color space, the hue channel
of each output sample is computed by locating the enclosing pair of anchor
hues and interpolating along the shorter arc of the unit circle: whenever the
absolute hue difference between the enclosing anchor pair exceeds `0.5`, `1.0`
is added to the smaller endpoint before linear interpolation and the result is
reduced modulo `1.0` into `[0,1)`; in particular, interpolating in HSV between
anchors of hue `0.95` and hue `0.05` with 3 output colors yields a middle hue
of exactly `0` (mod 1), not near `0.5`.  The first conjunct settles the
general rule: at every query point lying in the segment `idx` of the anchor
positions, the source's `_circular_interp` step returns exactly the
specification's shortest-arc interpolation of the enclosing hue pair.  The
remaining conjuncts compute the `0.95 → 0.05` HSV example: the two anchors
`(1,0,3/10)` and `(1,3/10,0)` have hues `19/20` and `1/20`, and the middle of
the 3 output colors is pure red, hue `0`. -/
theorem hue_shortest_arc :
    (∀ (xs hh : List ℚ) (x : ℚ) (idx : ℕ),
      List.Chain' (· < ·) xs → hh.length = xs.length → idx + 1 < xs.length →
      xs.getD idx 0 ≤ x → x < xs.getD (idx + 1) 0 →
      circ_one (xs.map some) hh x =
        .ok (shortestArcHue (hh.getD idx 0) (hh.getD (idx + 1) 0)
          ((x - xs.getD idx 0) / (xs.getD (idx + 1) 0 - xs.getD idx 0)))) ∧
    lut_colors [(1, 0, 3/10), (1, 3/10, 0)] 3 "hsv" =
      .ok [(1, 0, 3/10), (1, 0, 0), (1, 3/10, 0)] ∧
    (rgb_to_hsv (1, 0, 3/10)).1 = 19/20 ∧
    (rgb_to_hsv (1, 3/10, 0)).1 = 1/20 ∧
    (rgb_to_hsv (1, 0, 0)).1 = 0 := by
  refine ⟨?_, ?_, ?_, ?_, ?_⟩
  · intro xs hh x idx hc hlen hidx hle hlt
    have hidxeq : lastIdxLE x (xs.map some) = some idx :=
      lastIdxLE_eq x xs idx hc (by omega) hle fun _ => hlt
    simp only [circ_one, hidxeq]
    have hnotlast : ¬(idx = hh.length - 1) := by omega
    have hi1 : idx < hh.length := by omega
    have hi2 : idx + 1 < hh.length := by omega
    rw [circ_val, if_neg hnotlast]
    by_cases hgt : hh.getD (idx + 1) 0 - hh.getD idx 0 > 1/2
    · rw [if_pos hgt]
      have habs : |hh.getD (idx + 1) 0 - hh.getD idx 0| > 1/2 := by
        rw [abs_of_pos (by linarith)]
        exact hgt
      have h12 : hh.getD idx 0 < hh.getD (idx + 1) 0 := by linarith
      rw [shortestArcHue, if_pos habs, if_pos h12, if_neg (by linarith)]
      rw [np_interp_aux_seg x idx xs (hh.set idx (hh.getD idx 0 + 1)) hc
        (by rw [List.length_set]; omega) hidx hle hlt]
      rw [getD_set_self hh idx _ hi1, getD_set_ne hh idx (idx + 1) _ (by omega) hi2]
      rw [mul_div_assoc]
    · rw [if_neg hgt]
      by_cases hlt2 : hh.getD (idx + 1) 0 - hh.getD idx 0 < -(1/2)
      · rw [if_pos hlt2]
        have habs : |hh.getD (idx + 1) 0 - hh.getD idx 0| > 1/2 := by
          rw [abs_of_neg (by linarith)]
          linarith
        have h21 : hh.getD (idx + 1) 0 < hh.getD idx 0 := by linarith
        rw [shortestArcHue, if_pos habs, if_neg (by linarith), if_pos h21]
        rw [np_interp_aux_seg x idx xs (hh.set (idx + 1) (hh.getD (idx + 1) 0 + 1)) hc
          (by rw [List.length_set]; omega) hidx hle hlt]
        rw [getD_set_ne hh (idx + 1) idx _ (by omega) hi1,
          getD_set_self hh (idx + 1) _ hi2]
        rw [mul_div_assoc]
      · rw [if_neg hlt2]
        have habs : ¬(|hh.getD (idx + 1) 0 - hh.getD idx 0| > 1/2) := by
          rw [not_lt, abs_le]
          constructor <;> linarith
        rw [shortestArcHue, if_neg habs]
        rw [np_interp_aux_seg x idx xs hh hc hlen hidx hle hlt]
        rw [mul_div_assoc]
  · have h1 : rgb_to_hsv (1, 0, 3/10) = (19/20, 1, 1) := by
      norm_num [rgb_to_hsv, max_def, min_def, pyMod1, Int.fract]
    have h2 : rgb_to_hsv (1, 3/10, 0) = (1/20, 1, 1) := by
      norm_num [rgb_to_hsv, max_def, min_def, pyMod1, Int.fract]
    have hx0 : posList 3 = [0, 1/2, 1] := by
      have h : List.range 3 = [0, 1, 2] := rfl
      rw [posList, h]
      simp only [List.map]
      norm_num
    have hxx : xxOf 2 = [some 0, some 1] := by
      have h : List.range 2 = [0, 1] := rfl
      rw [xxOf, h]
      simp only [List.map]
      norm_num [npDiv]
    have c0 : circ_one [some 0, some 1] [19/20, 1/20] 0 = .ok (19/20) := by
      norm_num [circ_one, lastIdxLE, optLE, circ_val, np_interp_aux, pyMod1,
        Int.fract, List.set]
    have c1 : circ_one [some 0, some 1] [19/20, 1/20] (1/2) = .ok 0 := by
      norm_num [circ_one, lastIdxLE, optLE, circ_val, np_interp_aux, pyMod1,
        Int.fract, List.set]
    have c2 : circ_one [some 0, some 1] [19/20, 1/20] 1 = .ok (1/20) := by
      norm_num [circ_one, lastIdxLE, optLE, circ_val, np_interp_aux, pyMod1,
        Int.fract, List.set]
    have s0 : np_interp 0 [some 0, some 1] [1, 1] = .ok 1 := by
      norm_num [np_interp, np_interp_aux]
    have s1 : np_interp (1/2) [some 0, some 1] [1, 1] = .ok 1 := by
      norm_num [np_interp, np_interp_aux]
    have s2 : np_interp 1 [some 0, some 1] [1, 1] = .ok 1 := by
      norm_num [np_interp, np_interp_aux]
    have h3 : hsv_to_rgb (19/20, 1, 1) = (1, 0, 3/10) := by
      have hf : Int.fmod 5 6 = 5 := by decide
      norm_num [hsv_to_rgb, pyInt, hf]
    have h4 : hsv_to_rgb (0, 1, 1) = (1, 0, 0) := by
      have hf : Int.fmod 0 6 = 0 := by decide
      norm_num [hsv_to_rgb, pyInt, hf]
    have h5 : hsv_to_rgb (1/20, 1, 1) = (1, 3/10, 0) := by
      have hf : Int.fmod 0 6 = 0 := by decide
      norm_num [hsv_to_rgb, pyInt, hf]
    rw [lut_colors, if_neg (by decide), if_pos rfl]
    simp only [lut_core, List.map_cons, List.map_nil, h1, h2, List.length_cons,
      List.length_nil]
    rw [show (0 + 1 + 1 : Nat) = 2 from rfl]
    rw [hxx, hx0]
    simp only [circular_interp, exceptMap, c0, c1, c2, s0, s1, s2, if_true,
      zipWith3, h3, h4, h5]
  · norm_num [rgb_to_hsv, max_def, min_def, pyMod1, Int.fract]
  · norm_num [rgb_to_hsv, max_def, min_def, pyMod1, Int.fract]
  · norm_num [rgb_to_hsv, max_def, min_def, pyMod1, Int.fract]

/-- Witness for `hue_shortest_arc`: its general conjunct applied to the
concrete two-anchor configuration of the `0.95 → 0.05` example at the middle
output position, every hypothesis discharged on the concrete values. -/
theorem hue_shortest_arc_witness :
    List.Chain' (· < ·) [(0:ℚ), 1] ∧
    ([(19:ℚ)/20, 1/20]).length = ([(0:ℚ), 1]).length ∧
    (0:ℕ) + 1 < ([(0:ℚ), 1]).length ∧
    ([(0:ℚ), 1]).getD 0 0 ≤ 1/2 ∧ (1/2 : ℚ) < ([(0:ℚ), 1]).getD (0 + 1) 0 ∧
    circ_one (([(0:ℚ), 1]).map some) [19/20, 1/20] (1/2) =
      .ok (shortestArcHue (([(19:ℚ)/20, 1/20]).getD 0 0)
        (([(19:ℚ)/20, 1/20]).getD (0 + 1) 0)
        ((1/2 - ([(0:ℚ), 1]).getD 0 0) /
          (([(0:ℚ), 1]).getD (0 + 1) 0 - ([(0:ℚ), 1]).getD 0 0))) :=
  ⟨by norm_num, by norm_num, by norm_num, by norm_num, by norm_num,
    hue_shortest_arc.1 [(0:ℚ), 1] [19/20, 1/20] (1/2) 0 (by norm_num)
      (by norm_num) (by norm_num) (by norm_num) (by norm_num)⟩

theorem channel_bounds (anchors : List Triple) (cv : Triple → Triple)
    (f : Triple → ℚ) (hval : ∀ c ∈ anchors, inUnit c)
    (hb : ∀ c, inUnit c → 0 ≤ f (cv c) ∧ f (cv c) ≤ 1) :
    ∀ q ∈ (anchors.map cv).map f, 0 ≤ q ∧ q ≤ 1 := by
  intro q hq
  obtain ⟨t, ht, rfl⟩ := List.mem_map.mp hq
  obtain ⟨c, hc, rfl⟩ := List.mem_map.mp ht
  exact hb c (hval c hc)

/-- Claim C2: for every sequence of at least 2 valid anchors, every supported
color space, and every `num_colors ≥ 2`, the built ramp contains exactly
`num_colors` RGB triples, in output-position order (the list is indexed by the
increasing output positions `j/(N-1)`). -/
theorem ramp_length (anchors : List Triple) (colorsys : String) (N : ℕ)
    (hK : 2 ≤ anchors.length) (hval : ∀ c ∈ anchors, inUnit c)
    (hcs : colorsys ∈ (["rgb", "hsv", "hls"] : List String)) (hN : 2 ≤ N) :
    ∃ out, lut_colors anchors N colorsys = .ok out ∧ out.length = N := by
  have hcs' : colorsys = "rgb" ∨ colorsys = "hsv" ∨ colorsys = "hls" := by
    simpa using hcs
  rcases hcs' with rfl | rfl | rfl
  · rw [lut_colors_rgb, lut_core_ok _ _ _ _ _ hK hN]
    exact ⟨_, rfl, by rw [List.length_map, posList_length]⟩
  · rw [lut_colors_hsv, lut_core_ok _ _ _ _ _ hK hN]
    exact ⟨_, rfl, by rw [List.length_map, posList_length]⟩
  · rw [lut_colors_hls, lut_core_ok _ _ _ _ _ hK hN]
    exact ⟨_, rfl, by rw [List.length_map, posList_length]⟩

/-- Witness for `ramp_length` at concrete anchors, space and size. -/
theorem ramp_length_witness :
    2 ≤ ([((0:ℚ),(0:ℚ),(0:ℚ)), (1,1,1)] : List Triple).length ∧
    (∀ c ∈ ([((0:ℚ),(0:ℚ),(0:ℚ)), (1,1,1)] : List Triple), inUnit c) ∧
    "rgb" ∈ (["rgb", "hsv", "hls"] : List String) ∧ 2 ≤ 5 ∧
    ∃ out, lut_colors [((0:ℚ),(0:ℚ),(0:ℚ)), (1,1,1)] 5 "rgb" = .ok out ∧
      out.length = 5 :=
  ⟨by norm_num, by
      intro c hc
      rcases List.mem_cons.mp hc with rfl | hc'
      · exact ⟨le_refl 0, by norm_num, le_refl 0, by norm_num, le_refl 0, by norm_num⟩
      · rcases List.mem_cons.mp hc' with rfl | hc''
        · exact ⟨by norm_num, le_refl 1, by norm_num, le_refl 1, by norm_num, le_refl 1⟩
        · exact absurd hc'' (List.not_mem_nil c)
    , by decide, by norm_num,
    ramp_length [((0:ℚ),(0:ℚ),(0:ℚ)), (1,1,1)] "rgb" 5 (by norm_num)
      (by
        intro c hc
        rcases List.mem_cons.mp hc with rfl | hc'
        · exact ⟨le_refl 0, by norm_num, le_refl 0, by norm_num, le_refl 0, by norm_num⟩
        · rcases List.mem_cons.mp hc' with rfl | hc''
          · exact ⟨by norm_num, le_refl 1, by norm_num, le_refl 1, by norm_num, le_refl 1⟩
          · exact absurd hc'' (List.not_mem_nil c))
      (by decide) (by norm_num)⟩

/-- Claim C4: for every sequence of at least 2 anchors inside the unit cube,
every supported color space, and every `num_colors ≥ 2`, every channel of
every output triple of the built ramp lies in `[0,1]` (exactly — the
embedding computes in exact rational arithmetic, so the floating-point
tolerance is not needed): the round trip through the working color space
never escapes the unit cube. -/
theorem ramp_unit_cube (anchors : List Triple) (colorsys : String) (N : ℕ)
    (hK : 2 ≤ anchors.length) (hval : ∀ c ∈ anchors, inUnit c)
    (hcs : colorsys ∈ (["rgb", "hsv", "hls"] : List String)) (hN : 2 ≤ N) :
    ∃ out, lut_colors anchors N colorsys = .ok out ∧ ∀ c ∈ out, inUnit c := by
  have hcs' : colorsys = "rgb" ∨ colorsys = "hsv" ∨ colorsys = "hls" := by
    simpa using hcs
  have hhne : ∀ cv : Triple → Triple, ((anchors.map cv).map fun t => (t:Triple).1) ≠ [] := by
    intro cv h
    have hlencv := congrArg List.length h
    simp only [List.length_map, List.length_nil] at hlencv
    omega
  rcases hcs' with rfl | rfl | rfl
  · rw [lut_colors_rgb, lut_core_ok _ _ _ _ _ hK hN]
    refine ⟨_, rfl, ?_⟩
    intro c hc
    obtain ⟨x, _, rfl⟩ := List.mem_map.mp hc
    simp only [Bool.false_eq_true, if_false]
    have hR := np_interp_aux_mem x ((posList anchors.length).map some) _
      (channel_bounds anchors (fun c => c) (fun t => t.1) hval fun c h => ⟨h.1, h.2.1⟩)
    have hG := np_interp_aux_mem x ((posList anchors.length).map some) _
      (channel_bounds anchors (fun c => c) (fun t => t.2.1) hval fun c h =>
        ⟨h.2.2.1, h.2.2.2.1⟩)
    have hB := np_interp_aux_mem x ((posList anchors.length).map some) _
      (channel_bounds anchors (fun c => c) (fun t => t.2.2) hval fun c h =>
        ⟨h.2.2.2.2.1, h.2.2.2.2.2⟩)
    exact ⟨hR.1, hR.2, hG.1, hG.2, hB.1, hB.2⟩
  · rw [lut_colors_hsv, lut_core_ok _ _ _ _ _ hK hN]
    refine ⟨_, rfl, ?_⟩
    intro c hc
    obtain ⟨x, _, rfl⟩ := List.mem_map.mp hc
    simp only [if_true]
    have hH := circ_pure_mem ((posList anchors.length).map some) _ x
      (channel_bounds anchors rgb_to_hsv (fun t => t.1) hval fun c h =>
        ⟨(rgb_to_hsv_bounds c h).1.1, le_of_lt (rgb_to_hsv_bounds c h).1.2⟩)
      (hhne rgb_to_hsv)
    have hS := np_interp_aux_mem x ((posList anchors.length).map some) _
      (channel_bounds anchors rgb_to_hsv (fun t => t.2.1) hval fun c h =>
        (rgb_to_hsv_bounds c h).2.1)
    have hV := np_interp_aux_mem x ((posList anchors.length).map some) _
      (channel_bounds anchors rgb_to_hsv (fun t => t.2.2) hval fun c h =>
        (rgb_to_hsv_bounds c h).2.2)
    exact hsv_to_rgb_mem _ _ _ hH.1 hH.2 hS.1 hS.2 hV.1 hV.2
  · rw [lut_colors_hls, lut_core_ok _ _ _ _ _ hK hN]
    refine ⟨_, rfl, ?_⟩
    intro c hc
    obtain ⟨x, _, rfl⟩ := List.mem_map.mp hc
    simp only [if_true]
    have hL := np_interp_aux_mem x ((posList anchors.length).map some) _
      (channel_bounds anchors rgb_to_hls (fun t => t.2.1) hval fun c h =>
        (rgb_to_hls_bounds c h).2.1)
    have hS := np_interp_aux_mem x ((posList anchors.length).map some) _
      (channel_bounds anchors rgb_to_hls (fun t => t.2.2) hval fun c h =>
        (rgb_to_hls_bounds c h).2.2)
    exact hls_to_rgb_mem _ _ _ hL.1 hL.2 hS.1 hS.2

/-- Witness for `ramp_unit_cube` at concrete anchors, space and size. -/
theorem ramp_unit_cube_witness :
    2 ≤ ([((0:ℚ),(0:ℚ),(0:ℚ)), (1,1,1)] : List Triple).length ∧
    (∀ c ∈ ([((0:ℚ),(0:ℚ),(0:ℚ)), (1,1,1)] : List Triple), inUnit c) ∧
    "hsv" ∈ (["rgb", "hsv", "hls"] : List String) ∧ 2 ≤ 3 ∧
    ∃ out, lut_colors [((0:ℚ),(0:ℚ),(0:ℚ)), (1,1,1)] 3 "hsv" = .ok out ∧
      ∀ c ∈ out, inUnit c :=
  ⟨by norm_num, by decide, by decide, by norm_num,
    ramp_unit_cube [((0:ℚ),(0:ℚ),(0:ℚ)), (1,1,1)] "hsv" 3 (by norm_num)
      (by decide) (by decide) (by norm_num)⟩

/-- Claim C3: for every sequence of at least 2 valid anchors, every supported
color space, and every `N ≥ 2`, the first output triple equals the first
anchor and the last equals the last anchor, each after the round trip through
the working color space — exactly, since the embedding computes in exact
rational arithmetic (subsuming the claim's floating-point tolerance). -/
theorem ramp_endpoints (anchors : List Triple) (colorsys : String) (N : ℕ)
    (hK : 2 ≤ anchors.length) (hval : ∀ c ∈ anchors, inUnit c)
    (hcs : colorsys ∈ (["rgb", "hsv", "hls"] : List String)) (hN : 2 ≤ N) :
    ∃ out, lut_colors anchors N colorsys = .ok out ∧
      out.head? = some (roundTripFn colorsys (anchors.getD 0 (0, 0, 0))) ∧
      out.getLast? =
        some (roundTripFn colorsys (anchors.getD (anchors.length - 1) (0, 0, 0))) := by
  have hcs' : colorsys = "rgb" ∨ colorsys = "hsv" ∨ colorsys = "hls" := by
    simpa using hcs
  have ha0 : anchors.getD 0 (0, 0, 0) ∈ anchors := by
    rw [List.getD_eq_getElem _ _ (by omega : 0 < anchors.length)]
    exact List.getElem_mem _
  have haL : anchors.getD (anchors.length - 1) (0, 0, 0) ∈ anchors := by
    rw [List.getD_eq_getElem _ _ (by omega : anchors.length - 1 < anchors.length)]
    exact List.getElem_mem _
  rcases hcs' with rfl | rfl | rfl
  · rw [lut_colors_rgb, lut_core_ok _ _ _ _ _ hK hN]
    refine ⟨_, rfl, ?_, ?_⟩
    · rw [List.head?_map, posList_head N hN, Option.map_some']
      congr 1
      simp only [Bool.false_eq_true, if_false]
      rw [np_interp_aux_at0 anchors.length _ hK (by simp),
        np_interp_aux_at0 anchors.length _ hK (by simp),
        np_interp_aux_at0 anchors.length _ hK (by simp),
        getD_map_map anchors _ _ 0 (by omega) (0, 0, 0),
        getD_map_map anchors _ _ 0 (by omega) (0, 0, 0),
        getD_map_map anchors _ _ 0 (by omega) (0, 0, 0)]
      rw [roundTripFn, if_pos rfl]
    · rw [List.getLast?_map, posList_getLast N hN, Option.map_some']
      congr 1
      simp only [Bool.false_eq_true, if_false]
      rw [np_interp_aux_at1 anchors.length _ hK (by simp),
        np_interp_aux_at1 anchors.length _ hK (by simp),
        np_interp_aux_at1 anchors.length _ hK (by simp),
        getD_map_map anchors _ _ (anchors.length - 1) (by omega) (0, 0, 0),
        getD_map_map anchors _ _ (anchors.length - 1) (by omega) (0, 0, 0),
        getD_map_map anchors _ _ (anchors.length - 1) (by omega) (0, 0, 0)]
      rw [roundTripFn, if_pos rfl]
  · rw [lut_colors_hsv, lut_core_ok _ _ _ _ _ hK hN]
    have hhue := (rgb_to_hsv_bounds _ (hval _ ha0)).1
    have hgetD0 : ((anchors.map rgb_to_hsv).map fun t => (t : Triple).1).getD 0 0 =
        (rgb_to_hsv (anchors.getD 0 (0, 0, 0))).1 :=
      getD_map_map anchors _ _ 0 (by omega) (0, 0, 0)
    refine ⟨_, rfl, ?_, ?_⟩
    · rw [List.head?_map, posList_head N hN, Option.map_some']
      congr 1
      simp only [if_true]
      rw [circ_pure_at_left anchors.length _ hK (by simp)
        (by rw [hgetD0]; exact hhue.1) (by rw [hgetD0]; exact hhue.2)]
      rw [np_interp_aux_at0 anchors.length _ hK (by simp),
        np_interp_aux_at0 anchors.length _ hK (by simp),
        hgetD0,
        getD_map_map anchors _ _ 0 (by omega) (0, 0, 0),
        getD_map_map anchors _ _ 0 (by omega) (0, 0, 0)]
      rw [roundTripFn, if_neg (by decide), if_pos rfl]
    · rw [List.getLast?_map, posList_getLast N hN, Option.map_some']
      congr 1
      simp only [if_true]
      rw [circ_pure_at_right anchors.length _ hK (by simp)]
      rw [np_interp_aux_at1 anchors.length _ hK (by simp),
        np_interp_aux_at1 anchors.length _ hK (by simp),
        getD_map_map anchors _ _ (anchors.length - 1) (by omega) (0, 0, 0),
        getD_map_map anchors _ _ (anchors.length - 1) (by omega) (0, 0, 0),
        getD_map_map anchors _ _ (anchors.length - 1) (by omega) (0, 0, 0)]
      rw [roundTripFn, if_neg (by decide), if_pos rfl]
  · rw [lut_colors_hls, lut_core_ok _ _ _ _ _ hK hN]
    have hhue := (rgb_to_hls_bounds _ (hval _ ha0)).1
    have hgetD0 : ((anchors.map rgb_to_hls).map fun t => (t : Triple).1).getD 0 0 =
        (rgb_to_hls (anchors.getD 0 (0, 0, 0))).1 :=
      getD_map_map anchors _ _ 0 (by omega) (0, 0, 0)
    refine ⟨_, rfl, ?_, ?_⟩
    · rw [List.head?_map, posList_head N hN, Option.map_some']
      congr 1
      simp only [if_true]
      rw [circ_pure_at_left anchors.length _ hK (by simp)
        (by rw [hgetD0]; exact hhue.1) (by rw [hgetD0]; exact hhue.2)]
      rw [np_interp_aux_at0 anchors.length _ hK (by simp),
        np_interp_aux_at0 anchors.length _ hK (by simp),
        hgetD0,
        getD_map_map anchors _ _ 0 (by omega) (0, 0, 0),
        getD_map_map anchors _ _ 0 (by omega) (0, 0, 0)]
      rw [roundTripFn, if_neg (by decide), if_neg (by decide)]
    · rw [List.getLast?_map, posList_getLast N hN, Option.map_some']
      congr 1
      simp only [if_true]
      rw [circ_pure_at_right anchors.length _ hK (by simp)]
      rw [np_interp_aux_at1 anchors.length _ hK (by simp),
        np_interp_aux_at1 anchors.length _ hK (by simp),
        getD_map_map anchors _ _ (anchors.length - 1) (by omega) (0, 0, 0),
        getD_map_map anchors _ _ (anchors.length - 1) (by omega) (0, 0, 0),
        getD_map_map anchors _ _ (anchors.length - 1) (by omega) (0, 0, 0)]
      rw [roundTripFn, if_neg (by decide), if_neg (by decide)]

/-- Witness for `ramp_endpoints` at concrete anchors, space and size. -/
theorem ramp_endpoints_witness :
    2 ≤ ([((0:ℚ),(0:ℚ),(0:ℚ)), (1,1,1)] : List Triple).length ∧
    (∀ c ∈ ([((0:ℚ),(0:ℚ),(0:ℚ)), (1,1,1)] : List Triple), inUnit c) ∧
    "hls" ∈ (["rgb", "hsv", "hls"] : List String) ∧ 2 ≤ 4 ∧
    ∃ out, lut_colors [((0:ℚ),(0:ℚ),(0:ℚ)), (1,1,1)] 4 "hls" = .ok out ∧
      out.head? = some (roundTripFn "hls"
        (([((0:ℚ),(0:ℚ),(0:ℚ)), (1,1,1)] : List Triple).getD 0 (0, 0, 0))) ∧
      out.getLast? = some (roundTripFn "hls"
        (([((0:ℚ),(0:ℚ),(0:ℚ)), (1,1,1)] : List Triple).getD
          (([((0:ℚ),(0:ℚ),(0:ℚ)), (1,1,1)] : List Triple).length - 1) (0, 0, 0))) :=
  ⟨by norm_num, by decide, by decide, by norm_num,
    ramp_endpoints [((0:ℚ),(0:ℚ),(0:ℚ)), (1,1,1)] "hls" 4 (by norm_num)
      (by decide) (by decide) (by norm_num)⟩

/-! Behavior on degenerate anchor counts (no validation exists in the code). -/

theorem xxOf_zero : xxOf 0 = [] := rfl

theorem xxOf_one : xxOf 1 = [none] := by
  rw [xxOf, show List.range 1 = [0] from rfl, List.map_cons, List.map_nil]
  rw [npDiv, if_pos (by norm_num)]

theorem np_interp_nil_error (x : ℚ) (fp : List ℚ) :
    np_interp x [] fp = .error (.valueError "array of sample points is empty") := rfl

theorem circ_one_nil_error (hh : List ℚ) (x : ℚ) :
    circ_one [] hh x =
      .error (.indexError "index -1 is out of bounds for axis 0 with size 0") := rfl

theorem circ_one_none_error (hh : List ℚ) (x : ℚ) :
    circ_one [none] hh x =
      .error (.indexError "index -1 is out of bounds for axis 0 with size 0") := rfl

theorem lut_core_empty_noncirc (N : ℕ) (cv : Triple → Triple)
    (inv : ℚ → ℚ → ℚ → Triple) (hN : 2 ≤ N) :
    lut_core [] N cv false inv =
      .error (.valueError "array of sample points is empty") := by
  obtain ⟨t, hpt, _⟩ := posList_cons N hN
  simp only [lut_core, List.map_nil, List.length_nil, Bool.false_eq_true, if_false,
    xxOf_zero, hpt, exceptMap, np_interp_nil_error]

theorem lut_core_empty_circ (N : ℕ) (cv : Triple → Triple)
    (inv : ℚ → ℚ → ℚ → Triple) (hN : 2 ≤ N) :
    lut_core [] N cv true inv =
      .error (.indexError "index -1 is out of bounds for axis 0 with size 0") := by
  obtain ⟨t, hpt, _⟩ := posList_cons N hN
  simp only [lut_core, List.map_nil, List.length_nil, if_true, xxOf_zero, hpt,
    circular_interp, exceptMap, circ_one_nil_error]

theorem lut_core_single_circ (a : Triple) (N : ℕ) (cv : Triple → Triple)
    (inv : ℚ → ℚ → ℚ → Triple) (hN : 2 ≤ N) :
    lut_core [a] N cv true inv =
      .error (.indexError "index -1 is out of bounds for axis 0 with size 0") := by
  obtain ⟨t, hpt, _⟩ := posList_cons N hN
  simp only [lut_core, List.map_cons, List.map_nil, List.length_cons, List.length_nil,
    if_true, hpt, circular_interp, exceptMap]
  rw [show (0 + 1 : ℕ) = 1 from rfl, xxOf_one, circ_one_none_error]

theorem lut_colors_single_rgb (a : Triple) (N : ℕ) :
    lut_colors [a] N "rgb" = .ok (List.replicate N a) := by
  rw [lut_colors_rgb]
  simp only [lut_core, List.map_cons, List.map_nil, List.length_cons, List.length_nil,
    Bool.false_eq_true, if_false]
  rw [show (0 + 1 : ℕ) = 1 from rfl, xxOf_one]
  have h1 : ∀ q : ℚ, ∀ x ∈ posList N, np_interp x [none] [q] = .ok q := by
    intro q x _
    rw [np_interp_ok x [none] [q] (by simp)]
    simp [np_interp_aux]
  rw [exceptMap_congr_ok _ (fun _ => a.1) _ (h1 a.1),
    exceptMap_congr_ok _ (fun _ => a.2.1) _ (h1 a.2.1),
    exceptMap_congr_ok _ (fun _ => a.2.2) _ (h1 a.2.2)]
  simp only [List.map_const', posList_length]
  rw [zipWith3_replicate]

/-- Claim C5 (amended): the code performs no anchor-count validation and never
raises `ConfigurationError` (no such exception exists in it).  What actually
happens, for `num_colors ≥ 2`: an empty anchor list fails, but with numpy's
`ValueError` (empty sample-point array) in RGB space and with `IndexError` in
HSV/HLS (the anchor-position array is empty, so the located-index lookup
indexes an empty array); a single-anchor list in RGB space does not fail at
all — it returns the constant ramp repeating that anchor (numpy's one-point
`np.interp` returns `fp[0]` even though the anchor position is NaN `= 0/0`);
in HSV/HLS a single anchor fails with `IndexError`, because no comparison
against the NaN anchor position is true. -/
theorem anchor_count_behavior (N : ℕ) (hN : 2 ≤ N) (a : Triple) :
    lut_colors [] N "rgb" = .error (.valueError "array of sample points is empty") ∧
    lut_colors [] N "hsv" =
      .error (.indexError "index -1 is out of bounds for axis 0 with size 0") ∧
    lut_colors [] N "hls" =
      .error (.indexError "index -1 is out of bounds for axis 0 with size 0") ∧
    lut_colors [a] N "rgb" = .ok (List.replicate N a) ∧
    lut_colors [a] N "hsv" =
      .error (.indexError "index -1 is out of bounds for axis 0 with size 0") ∧
    lut_colors [a] N "hls" =
      .error (.indexError "index -1 is out of bounds for axis 0 with size 0") := by
  refine ⟨?_, ?_, ?_, lut_colors_single_rgb a N, ?_, ?_⟩
  · rw [lut_colors_rgb]
    exact lut_core_empty_noncirc N _ _ hN
  · rw [lut_colors_hsv]
    exact lut_core_empty_circ N _ _ hN
  · rw [lut_colors_hls]
    exact lut_core_empty_circ N _ _ hN
  · rw [lut_colors_hsv]
    exact lut_core_single_circ a N _ _ hN
  · rw [lut_colors_hls]
    exact lut_core_single_circ a N _ _ hN

/-- Witness for `anchor_count_behavior` at `N = 3`, anchor `(0,0,0)`. -/
theorem anchor_count_behavior_witness :
    2 ≤ 3 ∧
    (lut_colors [] 3 "rgb" = .error (.valueError "array of sample points is empty") ∧
     lut_colors [] 3 "hsv" =
       .error (.indexError "index -1 is out of bounds for axis 0 with size 0") ∧
     lut_colors [] 3 "hls" =
       .error (.indexError "index -1 is out of bounds for axis 0 with size 0") ∧
     lut_colors [((0:ℚ),(0:ℚ),(0:ℚ))] 3 "rgb" =
       .ok (List.replicate 3 (((0:ℚ),(0:ℚ),(0:ℚ)) : Triple)) ∧
     lut_colors [((0:ℚ),(0:ℚ),(0:ℚ))] 3 "hsv" =
       .error (.indexError "index -1 is out of bounds for axis 0 with size 0") ∧
     lut_colors [((0:ℚ),(0:ℚ),(0:ℚ))] 3 "hls" =
       .error (.indexError "index -1 is out of bounds for axis 0 with size 0")) :=
  ⟨by norm_num, anchor_count_behavior 3 (by norm_num) ((0:ℚ),(0:ℚ),(0:ℚ))⟩

/-- Counterexample to claim C5 as stated: building a ramp from the
single-anchor list `[(0,0,0)]` in RGB space with `num_colors = 10` does not
fail at all — it returns the constant ramp — so in particular it does not
raise `ConfigurationError`; and the empty-anchor failure in RGB space is a
`ValueError` from `np.interp`, not a `ConfigurationError`. -/
theorem anchor_count_cex :
    lut_colors [((0:ℚ),(0:ℚ),(0:ℚ))] 10 "rgb" =
      .ok (List.replicate 10 (((0:ℚ),(0:ℚ),(0:ℚ)) : Triple)) ∧
    lut_colors [((0:ℚ),(0:ℚ),(0:ℚ))] 10 "rgb" ≠ .error PyErr.configurationError ∧
    lut_colors [] 10 "rgb" = .error (.valueError "array of sample points is empty") ∧
    lut_colors ([] : List Triple) 10 "rgb" ≠ .error PyErr.configurationError := by
  have h1 := lut_colors_single_rgb (((0:ℚ),(0:ℚ),(0:ℚ)) : Triple) 10
  have h2 : lut_colors ([] : List Triple) 10 "rgb" =
      .error (.valueError "array of sample points is empty") := by
    rw [lut_colors_rgb]
    exact lut_core_empty_noncirc 10 _ _ (by norm_num)
  refine ⟨h1, ?_, h2, ?_⟩
  · rw [h1]
    simp
  · rw [h2]
    simp

/-- Claim C6 (amended): the numeric core performs no validation of the
resolved anchor triples at all — no exception is raised for out-of-range
channels (there is no `ValidationError` in the code), and nothing is clamped:
with any anchors (valid or not), RGB-space ramp building succeeds and the
first output triple is the first anchor passed through unchanged.  (The only
anchor-level check in the source is `_color_to_tripple` verifying that the
color *name* exists in the external `colors.par` file, raising `ValueError`
for unknown names — it never inspects the numeric values.) -/
theorem no_anchor_validation (anchors : List Triple) (N : ℕ)
    (hK : 2 ≤ anchors.length) (hN : 2 ≤ N) :
    ∃ out, lut_colors anchors N "rgb" = .ok out ∧
      out.head? = some (anchors.getD 0 (0, 0, 0)) := by
  rw [lut_colors_rgb, lut_core_ok _ _ _ _ _ hK hN]
  refine ⟨_, rfl, ?_⟩
  rw [List.head?_map, posList_head N hN, Option.map_some']
  congr 1
  simp only [Bool.false_eq_true, if_false]
  rw [np_interp_aux_at0 anchors.length _ hK (by simp),
    np_interp_aux_at0 anchors.length _ hK (by simp),
    np_interp_aux_at0 anchors.length _ hK (by simp),
    getD_map_map anchors _ _ 0 (by omega) (0, 0, 0),
    getD_map_map anchors _ _ 0 (by omega) (0, 0, 0),
    getD_map_map anchors _ _ 0 (by omega) (0, 0, 0)]

/-- Witness for `no_anchor_validation` at the out-of-range anchor list of the
counterexample. -/
theorem no_anchor_validation_witness :
    2 ≤ ([((3:ℚ)/2, 0, 0), (0, 0, 0)] : List Triple).length ∧ 2 ≤ 3 ∧
    ∃ out, lut_colors [((3:ℚ)/2, 0, 0), (0, 0, 0)] 3 "rgb" = .ok out ∧
      out.head? =
        some (([((3:ℚ)/2, 0, 0), (0, 0, 0)] : List Triple).getD 0 (0, 0, 0)) :=
  ⟨by norm_num, by norm_num,
    no_anchor_validation [((3:ℚ)/2, 0, 0), (0, 0, 0)] 3 (by norm_num) (by norm_num)⟩

/-- Counterexample to claim C6 as stated: the malformed anchor `(1.5, 0, 0)`
(channel `3/2 > 1`) is accepted without any error — no `ValidationError` is
raised — and the out-of-range value flows through interpolation unclamped:
the ramp starts at `3/2` and interpolates down through `3/4`. -/
theorem invalid_anchor_cex :
    lut_colors [((3:ℚ)/2, 0, 0), (0, 0, 0)] 3 "rgb" =
      .ok [((3:ℚ)/2, 0, 0), (3/4, 0, 0), (0, 0, 0)] ∧
    (1 : ℚ) < 3/2 ∧
    lut_colors [((3:ℚ)/2, 0, 0), (0, 0, 0)] 3 "rgb" ≠ .error PyErr.validationError := by
  have hx0 : posList 3 = [0, 1/2, 1] := by
    rw [posList, show List.range 3 = [0, 1, 2] from rfl]
    simp only [List.map]
    norm_num
  have hxx : xxOf 2 = [some 0, some 1] := by
    rw [xxOf, show List.range 2 = [0, 1] from rfl]
    simp only [List.map]
    norm_num [npDiv]
  have r0 : np_interp 0 [some 0, some 1] [3/2, 0] = .ok (3/2) := by
    norm_num [np_interp, np_interp_aux]
  have r1 : np_interp (1/2) [some 0, some 1] [3/2, 0] = .ok (3/4) := by
    norm_num [np_interp, np_interp_aux]
  have r2 : np_interp 1 [some 0, some 1] [3/2, 0] = .ok 0 := by
    norm_num [np_interp, np_interp_aux]
  have z0 : np_interp 0 [some 0, some 1] [0, 0] = .ok 0 := by
    norm_num [np_interp, np_interp_aux]
  have z1 : np_interp (1/2) [some 0, some 1] [0, 0] = .ok 0 := by
    norm_num [np_interp, np_interp_aux]
  have z2 : np_interp 1 [some 0, some 1] [0, 0] = .ok 0 := by
    norm_num [np_interp, np_interp_aux]
  have hmain : lut_colors [((3:ℚ)/2, 0, 0), (0, 0, 0)] 3 "rgb" =
      .ok [((3:ℚ)/2, 0, 0), (3/4, 0, 0), (0, 0, 0)] := by
    rw [lut_colors_rgb]
    simp only [lut_core, List.map_cons, List.map_nil, List.length_cons,
      List.length_nil, Bool.false_eq_true, if_false]
    rw [show (0 + 1 + 1 : ℕ) = 2 from rfl, hxx, hx0]
    simp only [exceptMap, r0, r1, r2, z0, z1, z2, zipWith3]
  refine ⟨hmain, by norm_num, ?_⟩
  rw [hmain]
  simp

/-- Claim C7 (amended): an unsupported color-space tag makes `lut_colors` fail
with `ValueError("Unknow value of colorsys")` — not `ConfigurationError`,
which does not exist in the code — raised before any interpolation; and for
each of the three supported tags that error is never produced (the only
errors the numeric core can raise are numpy's empty-sample `ValueError` and
the empty-`np.where` `IndexError`). -/
theorem colorsys_error_behavior :
    (∀ (colors : List Triple) (N : ℕ) (cs : String),
      cs ∉ (["rgb", "hsv", "hls"] : List String) →
      lut_colors colors N cs = .error (.valueError "Unknow value of colorsys")) ∧
    (∀ (colors : List Triple) (N : ℕ) (cs : String),
      cs ∈ (["rgb", "hsv", "hls"] : List String) →
      lut_colors colors N cs ≠ .error (.valueError "Unknow value of colorsys")) := by
  constructor
  · intro colors N cs h
    have h' : ¬cs = "rgb" ∧ ¬cs = "hsv" ∧ ¬cs = "hls" := by
      simp only [List.mem_cons, List.not_mem_nil, or_false, not_or] at h
      exact h
    rw [lut_colors, if_neg h'.1, if_neg h'.2.1, if_neg h'.2.2]
  · intro colors N cs h hcontra
    have h' : cs = "rgb" ∨ cs = "hsv" ∨ cs = "hls" := by simpa using h
    have herr : ∀ (cv : Triple → Triple) (circ : Bool) (inv : ℚ → ℚ → ℚ → Triple),
        lut_core colors N cv circ inv =
          .error (.valueError "Unknow value of colorsys") → False := by
      intro cv circ inv hcore
      rcases lut_core_error _ _ _ _ _ _ hcore with h'' | h'' <;> simp at h''
    rcases h' with rfl | rfl | rfl
    · rw [lut_colors_rgb] at hcontra
      exact herr _ _ _ hcontra
    · rw [lut_colors_hsv] at hcontra
      exact herr _ _ _ hcontra
    · rw [lut_colors_hls] at hcontra
      exact herr _ _ _ hcontra

/-- Witness for `colorsys_error_behavior`: the unsupported tag `"xyz"` raises
the `ValueError`, and the supported tag `"rgb"` never produces it. -/
theorem colorsys_error_behavior_witness :
    "xyz" ∉ (["rgb", "hsv", "hls"] : List String) ∧
    lut_colors [((0:ℚ),(0:ℚ),(0:ℚ)), (1,1,1)] 10 "xyz" =
      .error (.valueError "Unknow value of colorsys") ∧
    "rgb" ∈ (["rgb", "hsv", "hls"] : List String) ∧
    lut_colors [((0:ℚ),(0:ℚ),(0:ℚ)), (1,1,1)] 10 "rgb" ≠
      .error (.valueError "Unknow value of colorsys") :=
  ⟨by decide,
    colorsys_error_behavior.1 [((0:ℚ),(0:ℚ),(0:ℚ)), (1,1,1)] 10 "xyz" (by decide),
    by decide,
    colorsys_error_behavior.2 [((0:ℚ),(0:ℚ),(0:ℚ)), (1,1,1)] 10 "rgb" (by decide)⟩

/-- Counterexample to claim C7 as stated: with the unsupported tag `"xyz"`
the failure is `ValueError("Unknow value of colorsys")`, which is not the
`ConfigurationError` the claim names (the code has no such exception). -/
theorem bad_colorsys_cex :
    lut_colors [((0:ℚ),(0:ℚ),(0:ℚ)), (1,1,1)] 10 "xyz" =
      .error (.valueError "Unknow value of colorsys") ∧
    (Except.error (PyErr.valueError "Unknow value of colorsys") :
      Except PyErr (List Triple)) ≠ .error PyErr.configurationError := by
  constructor
  · rw [lut_colors, if_neg (by decide), if_neg (by decide), if_neg (by decide)]
  · simp

/-- Claim C8: for every `v ∈ [0,1]`, `hexify v` returns the two-character
uppercase hexadecimal representation of `min(floor(v*256), 255)` (the
`int()` truncation coincides with `floor` on the nonnegative `v*256`, and
the `ival > 255` clamp is the `min`); `hexify 0 = "00"`, `hexify 0.5 = "80"`,
`hexify 1 = "FF"`; and every `v` outside `[0,1]` raises `ValueError`.  The
third conjunct checks that `toHex2` really is the two-character uppercase
base-16 representation: decoding its two digits recovers `n`, and every
character is an uppercase hex digit. -/
theorem hexify_spec :
    (∀ v : ℚ, 0 ≤ v → v ≤ 1 →
      hexify v = .ok (toHex2 (min (⌊v * 256⌋).toNat 255))) ∧
    (∀ v : ℚ, v < 0 ∨ 1 < v →
      hexify v = .error (.valueError "Color values must be between 0 and 1")) ∧
    (∀ n : ℕ, n < 256 → (toHex2 n).length = 2 ∧
      16 * hexDigitVal ((toHex2 n).data.getD 0 ' ') +
        hexDigitVal ((toHex2 n).data.getD 1 ' ') = n ∧
      (∀ c ∈ (toHex2 n).data, ('0' ≤ c ∧ c ≤ '9') ∨ ('A' ≤ c ∧ c ≤ 'F'))) ∧
    hexify 0 = .ok "00" ∧ hexify (1/2) = .ok "80" ∧ hexify 1 = .ok "FF" := by
  refine ⟨?_, ?_, ?_, ?_, ?_, ?_⟩
  · intro v h0 h1
    rw [hexify, if_neg (by push_neg; exact ⟨h0, h1⟩)]
    have hpy : pyInt (v * 256) = ⌊v * 256⌋ := by
      rw [pyInt, if_neg (not_lt.mpr (by positivity))]
    simp only [hpy]
    congr 2
    split_ifs with hle <;> omega
  · intro v hv
    rw [hexify, if_pos hv]
  · set_option maxHeartbeats 1000000 in
    set_option maxRecDepth 4000 in
    decide
  · rw [hexify, if_neg (by norm_num)]
    have hpy : pyInt (0 * 256) = 0 := by
      rw [pyInt, if_neg (by norm_num)]
      norm_num
    simp only [hpy]
    exact congrArg Except.ok (by decide)
  · rw [hexify, if_neg (by norm_num)]
    have hpy : pyInt (1/2 * 256) = 128 := by
      rw [pyInt, if_neg (by norm_num)]
      norm_num
    simp only [hpy]
    exact congrArg Except.ok (by decide)
  · rw [hexify, if_neg (by norm_num)]
    have hpy : pyInt (1 * 256) = 256 := by
      rw [pyInt, if_neg (by norm_num)]
      norm_num
    simp only [hpy]
    exact congrArg Except.ok (by decide)

/-- Witness for `hexify_spec`: its quantified conjuncts applied at `v = 1/2`,
`v = 2` and `n = 128`. -/
theorem hexify_spec_witness :
    (0 ≤ (1/2 : ℚ) ∧ (1/2 : ℚ) ≤ 1 ∧
      hexify (1/2) = .ok (toHex2 (min (⌊(1/2 : ℚ) * 256⌋).toNat 255))) ∧
    (((2:ℚ) < 0 ∨ 1 < (2:ℚ)) ∧
      hexify 2 = .error (.valueError "Color values must be between 0 and 1")) ∧
    (128 < 256 ∧ (toHex2 128).length = 2 ∧
      16 * hexDigitVal ((toHex2 128).data.getD 0 ' ') +
        hexDigitVal ((toHex2 128).data.getD 1 ' ') = 128 ∧
      (∀ c ∈ (toHex2 128).data, ('0' ≤ c ∧ c ≤ '9') ∨ ('A' ≤ c ∧ c ≤ 'F'))) :=
  ⟨⟨by norm_num, by norm_num, hexify_spec.1 (1/2) (by norm_num) (by norm_num)⟩,
   ⟨Or.inr (by norm_num), hexify_spec.2.1 2 (Or.inr (by norm_num))⟩,
   ⟨by norm_num, hexify_spec.2.2.1 128 (by norm_num)⟩⟩

/-! The tuple branch of `get_rgb_values`. -/

theorem any_oob (l : List ℚ) :
    (l.any fun x => decide (x < 0) || decide (x > 1)) = true ↔
      ∃ x ∈ l, x < 0 ∨ 1 < x := by
  rw [List.any_eq_true]
  simp only [Bool.or_eq_true, decide_eq_true_eq, gt_iff_lt]

theorem any_oob_false (l : List ℚ) (hl : ∀ x ∈ l, 0 ≤ x ∧ x ≤ 1) :
    (l.any fun x => decide (x < 0) || decide (x > 1)) = false := by
  rw [List.any_eq_false]
  intro x hx
  simp only [Bool.or_eq_true, decide_eq_true_eq, not_or, not_lt, gt_iff_lt]
  exact ⟨(hl x hx).1, (hl x hx).2⟩

theorem unzip_stuff_ok (r g b : List ℚ) (hg : r.length = g.length)
    (hb : r.length = b.length)
    (hr : ∀ x ∈ r, 0 ≤ x ∧ x ≤ 1) (hgv : ∀ x ∈ g, 0 ≤ x ∧ x ≤ 1)
    (hbv : ∀ x ∈ b, 0 ≤ x ∧ x ≤ 1) :
    unzip_stuff [r, g, b] = .ok (r, g, b) := by
  simp only [unzip_stuff, List.getD_cons_zero, List.getD_cons_succ]
  rw [if_neg (by simp)]
  rw [if_neg (by push_neg; exact ⟨hg, hb, by omega⟩)]
  simp only [any_oob_false r hr, any_oob_false g hgv, any_oob_false b hbv,
    Bool.false_eq_true, if_false]

/-- Claim C9: on equal-length channel sequences with values in `[0,1]`,
applying `get_rgb_values` with `invert=True` twice returns the original
channels (`v ↦ 1 - v` is an involution), and applying it with `reverse=True`
twice returns the original order (reversal is an involution). -/
theorem rgb_values_involution :
    ∀ r g b : List ℚ, r.length = g.length → r.length = b.length →
      (∀ x ∈ r, 0 ≤ x ∧ x ≤ 1) → (∀ x ∈ g, 0 ≤ x ∧ x ≤ 1) →
      (∀ x ∈ b, 0 ≤ x ∧ x ≤ 1) →
      (get_rgb_values [r, g, b] false true =
          .ok (r.map (fun v => 1 - v), g.map (fun v => 1 - v),
            b.map (fun v => 1 - v)) ∧
        get_rgb_values [r.map (fun v => 1 - v), g.map (fun v => 1 - v),
            b.map (fun v => 1 - v)] false true = .ok (r, g, b)) ∧
      (get_rgb_values [r, g, b] true false =
          .ok (r.reverse, g.reverse, b.reverse) ∧
        get_rgb_values [r.reverse, g.reverse, b.reverse] true false =
          .ok (r, g, b)) := by
  intro r g b hg hb hr hgv hbv
  have hinv : ∀ l : List ℚ, (∀ x ∈ l, 0 ≤ x ∧ x ≤ 1) →
      ∀ x ∈ l.map (fun v => 1 - v), 0 ≤ x ∧ x ≤ 1 := by
    intro l hl x hx
    obtain ⟨y, hy, rfl⟩ := List.mem_map.mp hx
    obtain ⟨hy0, hy1⟩ := hl y hy
    exact ⟨by linarith, by linarith⟩
  have hrev : ∀ l : List ℚ, (∀ x ∈ l, 0 ≤ x ∧ x ≤ 1) →
      ∀ x ∈ l.reverse, 0 ≤ x ∧ x ≤ 1 := by
    intro l hl x hx
    exact hl x (List.mem_reverse.mp hx)
  have hmapmap : ∀ l : List ℚ,
      (l.map (fun v => 1 - v)).map (fun v => 1 - v) = l := by
    intro l
    rw [List.map_map]
    have hcomp : ((fun v : ℚ => 1 - v) ∘ fun v : ℚ => 1 - v) = id := by
      funext x
      simp
    rw [hcomp, List.map_id]
  refine ⟨⟨?_, ?_⟩, ?_, ?_⟩
  · simp only [get_rgb_values, unzip_stuff_ok r g b hg hb hr hgv hbv,
      Bool.false_eq_true, if_false, if_true]
  · simp only [get_rgb_values, unzip_stuff_ok _ _ _ (by simp [hg] : _)
      (by simp [hb] : _) (hinv r hr) (hinv g hgv) (hinv b hbv),
      Bool.false_eq_true, if_false, if_true, hmapmap]
  · simp only [get_rgb_values, unzip_stuff_ok r g b hg hb hr hgv hbv,
      Bool.false_eq_true, if_false, if_true]
  · simp only [get_rgb_values, unzip_stuff_ok _ _ _ (by simp [hg] : _)
      (by simp [hb] : _) (hrev r hr) (hrev g hgv) (hrev b hbv),
      Bool.false_eq_true, if_false, if_true, List.reverse_reverse]

/-- Witness for `rgb_values_involution` at concrete channel sequences. -/
theorem rgb_values_involution_witness :
    ([(0:ℚ), 1]).length = ([(1:ℚ), 0]).length ∧
    ([(0:ℚ), 1]).length = ([(1:ℚ), 1]).length ∧
    (∀ x ∈ [(0:ℚ), 1], 0 ≤ x ∧ x ≤ 1) ∧
    (∀ x ∈ [(1:ℚ), 0], 0 ≤ x ∧ x ≤ 1) ∧
    (∀ x ∈ [(1:ℚ), 1], 0 ≤ x ∧ x ≤ 1) ∧
    (get_rgb_values [([(0:ℚ), 1]).map (fun v => 1 - v),
        ([(1:ℚ), 0]).map (fun v => 1 - v), ([(1:ℚ), 1]).map (fun v => 1 - v)]
        false true = .ok ([(0:ℚ), 1], [(1:ℚ), 0], [(1:ℚ), 1])) ∧
    (get_rgb_values [([(0:ℚ), 1]).reverse, ([(1:ℚ), 0]).reverse,
        ([(1:ℚ), 1]).reverse] true false =
      .ok ([(0:ℚ), 1], [(1:ℚ), 0], [(1:ℚ), 1])) :=
  ⟨rfl, rfl, by decide, by decide, by decide,
    (rgb_values_involution [(0:ℚ), 1] [(1:ℚ), 0] [(1:ℚ), 1] rfl rfl
      (by decide) (by decide) (by decide)).1.2,
    (rgb_values_involution [(0:ℚ), 1] [(1:ℚ), 0] [(1:ℚ), 1] rfl rfl
      (by decide) (by decide) (by decide)).2.2⟩

/-- Claim C10: on a tuple argument, `get_rgb_values` raises `IndexError` when
the tuple does not have exactly 3 elements, when the three channel sequences
differ in length, or when any channel value lies outside `[0,1]`; otherwise
(with `reverse` and `invert` both false) it returns the three channel
sequences unchanged. -/
theorem unzip_validation :
    (∀ t : List (List ℚ), t.length ≠ 3 →
      get_rgb_values t false false =
        .error (.indexError "The input tuple must have 3 elements")) ∧
    (∀ r g b : List ℚ,
      (r.length ≠ g.length ∨ r.length ≠ b.length ∨ g.length ≠ b.length) →
      get_rgb_values [r, g, b] false false =
        .error (.indexError "Must have the same number of red, green, and blue values")) ∧
    (∀ r g b : List ℚ, r.length = g.length → r.length = b.length →
      ((∃ x ∈ r, x < 0 ∨ 1 < x) ∨ (∃ x ∈ g, x < 0 ∨ 1 < x) ∨
        (∃ x ∈ b, x < 0 ∨ 1 < x)) →
      ∃ msg, get_rgb_values [r, g, b] false false = .error (.indexError msg)) ∧
    (∀ r g b : List ℚ, r.length = g.length → r.length = b.length →
      (∀ x ∈ r, 0 ≤ x ∧ x ≤ 1) → (∀ x ∈ g, 0 ≤ x ∧ x ≤ 1) →
      (∀ x ∈ b, 0 ≤ x ∧ x ≤ 1) →
      get_rgb_values [r, g, b] false false = .ok (r, g, b)) := by
  refine ⟨?_, ?_, ?_, ?_⟩
  · intro t ht
    rw [get_rgb_values, unzip_stuff, if_pos ht]
  · intro r g b hlen
    rw [get_rgb_values, unzip_stuff, if_neg (by simp)]
    simp only [List.getD_cons_zero, List.getD_cons_succ]
    rw [if_pos hlen]
  · intro r g b hg hb hex
    have hlenok : ¬(r.length ≠ g.length ∨ r.length ≠ b.length ∨
        g.length ≠ b.length) := by
      push_neg
      exact ⟨hg, hb, by omega⟩
    by_cases hra : (r.any fun x => decide (x < 0) || decide (x > 1)) = true
    · refine ⟨"All the red values must be between 0 and 1.", ?_⟩
      rw [get_rgb_values, unzip_stuff, if_neg (by simp)]
      simp only [List.getD_cons_zero, List.getD_cons_succ]
      rw [if_neg hlenok, if_pos hra]
    · by_cases hga : (g.any fun x => decide (x < 0) || decide (x > 1)) = true
      · refine ⟨"All the green values must be between 0 and 1.", ?_⟩
        rw [get_rgb_values, unzip_stuff, if_neg (by simp)]
        simp only [List.getD_cons_zero, List.getD_cons_succ]
        rw [if_neg hlenok]
        simp only [Bool.not_eq_true] at hra
        simp only [hra, Bool.false_eq_true, if_false]
        rw [if_pos hga]
      · by_cases hba : (b.any fun x => decide (x < 0) || decide (x > 1)) = true
        · refine ⟨"All the blue values must be between 0 and 1.", ?_⟩
          rw [get_rgb_values, unzip_stuff, if_neg (by simp)]
          simp only [List.getD_cons_zero, List.getD_cons_succ]
          rw [if_neg hlenok]
          simp only [Bool.not_eq_true] at hra hga
          simp only [hra, hga, Bool.false_eq_true, if_false]
          rw [if_pos hba]
        · exfalso
          simp only [Bool.not_eq_true] at hra hga hba
          rcases hex with h | h | h
          · rw [← any_oob r] at h
            rw [hra] at h
            exact absurd h (by simp)
          · rw [← any_oob g] at h
            rw [hga] at h
            exact absurd h (by simp)
          · rw [← any_oob b] at h
            rw [hba] at h
            exact absurd h (by simp)
  · intro r g b hg hb hr hgv hbv
    simp only [get_rgb_values, unzip_stuff_ok r g b hg hb hr hgv hbv,
      Bool.false_eq_true, if_false]

/-- Witness for `unzip_validation`: its four conjuncts applied at concrete
tuples exercising each branch. -/
theorem unzip_validation_witness :
    (([[(0:ℚ)]]).length ≠ 3 ∧
      get_rgb_values [[(0:ℚ)]] false false =
        .error (.indexError "The input tuple must have 3 elements")) ∧
    ((([(0:ℚ)]).length ≠ ([(0:ℚ), 1]).length ∨ ([(0:ℚ)]).length ≠ ([(0:ℚ)]).length ∨
        ([(0:ℚ), 1]).length ≠ ([(0:ℚ)]).length) ∧
      get_rgb_values [[(0:ℚ)], [(0:ℚ), 1], [(0:ℚ)]] false false =
        .error (.indexError "Must have the same number of red, green, and blue values")) ∧
    (([(2:ℚ)]).length = ([(0:ℚ)]).length ∧ ([(2:ℚ)]).length = ([(1:ℚ)]).length ∧
      ((∃ x ∈ [(2:ℚ)], x < 0 ∨ 1 < x) ∨ (∃ x ∈ [(0:ℚ)], x < 0 ∨ 1 < x) ∨
        (∃ x ∈ [(1:ℚ)], x < 0 ∨ 1 < x)) ∧
      ∃ msg, get_rgb_values [[(2:ℚ)], [(0:ℚ)], [(1:ℚ)]] false false =
        .error (.indexError msg)) ∧
    (get_rgb_values [[(0:ℚ)], [(1:ℚ)], [(0:ℚ)]] false false =
      .ok ([(0:ℚ)], [(1:ℚ)], [(0:ℚ)])) :=
  ⟨⟨by norm_num, unzip_validation.1 [[(0:ℚ)]] (by norm_num)⟩,
   ⟨Or.inl (by norm_num),
     unzip_validation.2.1 [(0:ℚ)] [(0:ℚ), 1] [(0:ℚ)] (Or.inl (by norm_num))⟩,
   ⟨rfl, rfl, Or.inl ⟨2, by norm_num, Or.inr (by norm_num)⟩,
     unzip_validation.2.2.1 [(2:ℚ)] [(0:ℚ)] [(1:ℚ)] rfl rfl
       (Or.inl ⟨2, by norm_num, Or.inr (by norm_num)⟩)⟩,
   unzip_validation.2.2.2 [(0:ℚ)] [(1:ℚ)] [(0:ℚ)] rfl rfl
     (by decide) (by decide) (by decide)⟩
